import Mathlib

/-!
Shallow embedding of the CUQIpy core (src/cuqi/distribution.py, src/cuqi/problem.py)
used to settle the claims about the MCMC/posterior dispatch engine.

Modelling conventions:
* Exact rational arithmetic (`ℚ`) stands for the floating-point arrays of numpy;
  transcendental values live in `ℝ`.
* External numerical library routines (numpy / scipy: `np.log`, `np.exp`, `np.pi`,
  `np.sqrt`, `np.linalg.cholesky`, `np.linalg.inv` on real factors, the
  `sparse_cholesky` helper built on `scipy.sparse.linalg.splu`,
  `scipy.sparse.linalg.eigsh`, `scipy.sparse.linalg.spsolve`, `scipy.linalg.dft`)
  are not part of this repository; they are modelled as the fields of an
  abstract `NumLib` record that every embedded routine takes as an argument.
  Theorems that need the mathematical meaning of `np.log`/`np.pi` pin the
  corresponding fields to `Real.log`/`Real.pi` by hypothesis or by literal
  instantiation.
* Python exceptions are modelled by the `PyErr` type and `Except PyErr` results.
  A reference to a never-assigned local variable (Python `UnboundLocalError`)
  is `PyErr.unboundLocal`; access to a missing instance attribute is
  `PyErr.attributeError` carrying the attribute name.
-/

namespace CUQIpy

open Matrix

/-- Column vectors of dimension `n`, with exact rational entries. -/
abbrev Vec (n : ℕ) := Fin n → ℚ

/-- Matrices with exact rational entries. -/
abbrev Mat (m n : ℕ) := Matrix (Fin m) (Fin n) ℚ

/-- Python exception outcomes that the embedded code can raise. -/
inductive PyErr where
  /-- Python `UnboundLocalError`: a local variable referenced before assignment. -/
  | unboundLocal : PyErr
  /-- Python `AttributeError` for the named missing attribute. -/
  | attributeError (attr : String) : PyErr
  /-- Python `TypeError` with the given message. -/
  | typeError (msg : String) : PyErr
  /-- Python `NotImplementedError` with the given message. -/
  | notImplementedError (msg : String) : PyErr
  /-- numpy `LinAlgError` (singular matrix passed to `solve`/`inv`). -/
  | linAlgError : PyErr
deriving DecidableEq, Repr

/-! ### Finite-difference operators

`scipy.sparse.spdiags(data, diags, m, n)` places `data[k, j]` at position
`(j - diags[k], j)`; i.e. the value stored on diagonal `d` at matrix position
`(i, j)` with `j - i = d` is `data[k, j]` (column-indexed, MATLAB convention).
The constructors below spell out the resulting entries of the operators built
in `Cauchy_diff.__init__`, `Laplace_diff.__init__` and `GMRF.__init__`. -/

/-- Forward-difference matrix with `zero` boundary, `spdiags([-1;1],[-1,0],n+1,n)`:
row `0` is `x₀`, row `i` (for `1 ≤ i ≤ n-1`) is `xᵢ - xᵢ₋₁`, row `n` is `-xₙ₋₁`. -/
def diffZero (n : ℕ) : Mat (n + 1) n :=
  Matrix.of fun i j =>
    if (i : ℕ) = (j : ℕ) then 1 else if (i : ℕ) = (j : ℕ) + 1 then -1 else 0

/-- Difference matrix with `periodic` boundary: `diffZero` with the two
subsequent in-place updates `Dmat[-1, 0] = 1` and `Dmat[0, -1] = -1`. -/
def diffPeriodic (n : ℕ) : Mat (n + 1) n :=
  Matrix.of fun i j =>
    if (i : ℕ) = n ∧ (j : ℕ) = 0 then 1
    else if (i : ℕ) = 0 ∧ (j : ℕ) = n - 1 then -1
    else diffZero n i j

/-- Difference matrix with `neumann` boundary as built in `Cauchy_diff`/`Laplace_diff`,
`spdiags([-1;1],[0,1],n-1,n)`: row `i` is `xᵢ₊₁ - xᵢ`. -/
def diffNeumann (n : ℕ) : Mat (n - 1) n :=
  Matrix.of fun i j =>
    if (j : ℕ) = (i : ℕ) then -1 else if (j : ℕ) = (i : ℕ) + 1 then 1 else 0

/-- Difference matrix with `backward` boundary, `spdiags([-1;1],[0,-1],n,n)`
followed by the in-place update `Dmat[0, 0] = 1`. -/
def diffBackward (n : ℕ) : Mat n n :=
  Matrix.of fun i j =>
    if (i : ℕ) = 0 ∧ (j : ℕ) = 0 then 1
    else if (j : ℕ) = (i : ℕ) then -1 else if (i : ℕ) = (j : ℕ) + 1 then 1 else 0

/-- Difference matrix with `neumann` boundary as built in `GMRF.__init__`:
`spdiags([-1;1],[0,1],N,N)` followed by `Dmat[-1, -1] = 0`, so row `i < N-1`
is `xᵢ₊₁ - xᵢ` and row `N-1` is zero. -/
def gmrfNeumannD (n : ℕ) : Mat n n :=
  Matrix.of fun i j =>
    if (i : ℕ) = n - 1 ∧ (j : ℕ) = n - 1 then 0
    else if (j : ℕ) = (i : ℕ) then -1 else if (j : ℕ) = (i : ℕ) + 1 then 1 else 0

/-! ### External numerical routines -/

/-- Abstract record of the external numpy/scipy routines used by the embedded
code.  The repository does not implement these; each embedded function takes
a `NumLib` argument and theorems pin the analytically meaningful fields
(`lg = Real.log`, `piv = Real.pi`, ...) where the claims require it. -/
structure NumLib where
  /-- np.log -/
  lg : ℝ → ℝ
  /-- np.exp -/
  ex : ℝ → ℝ
  /-- np.pi -/
  piv : ℝ
  /-- np.sqrt -/
  sqr : ℝ → ℝ
  /-- np.linalg.cholesky: raises `LinAlgError` when its argument is not
  positive definite, hence the `Except` result. -/
  npchol : (n : ℕ) → Mat n n → Except PyErr (Matrix (Fin n) (Fin n) ℝ)
  /-- np.linalg.inv applied to an (always nonsingular) real Cholesky factor. -/
  npinvR : (n : ℕ) → Matrix (Fin n) (Fin n) ℝ → Matrix (Fin n) (Fin n) ℝ
  /-- The `sparse_cholesky` helper of `GMRF.__init__` (built on
  `scipy.sparse.linalg.splu`), producing the sparse Cholesky factor.  All
  matrices the repository passes to it are positive definite (see the rank
  invariant theorems below), so it is modelled as a total oracle. -/
  spchol : (n : ℕ) → Mat n n → Matrix (Fin n) (Fin n) ℝ
  /-- scipy.sparse.linalg.eigsh with `which='LM'` (largest-magnitude
  eigenvalues), returning `k` eigenvalues of the given matrix. -/
  eigshLM : (n : ℕ) → Mat n n → (k : ℕ) → Fin k → ℝ
  /-- scipy.sparse.linalg.spsolve on a real system. -/
  spsolveR : (n : ℕ) → Matrix (Fin n) (Fin n) ℝ → (Fin n → ℝ) → Fin n → ℝ
  /-- scipy.sparse.linalg.spsolve with a complex right-hand side. -/
  spsolveC : (n : ℕ) → Matrix (Fin n) (Fin n) ℝ → (Fin n → ℂ) → Fin n → ℂ
  /-- scipy.linalg.dft(n, scale='sqrtn'): the unitary DFT matrix. -/
  dft : (n : ℕ) → Matrix (Fin n) (Fin n) ℂ

/-- The machine epsilon `eps = np.finfo(float).eps = 2⁻⁵²`;
`np.sqrt(eps)` is exactly `2⁻²⁶`. -/
def sqrtEps : ℚ := 1 / 2 ^ 26

/-! ### GMRF (src/cuqi/distribution.py lines 207-313) -/

/-- Instance attributes of a constructed `GMRF` object.  The attributes
`rank`, `chol`, `L_eigval` and `logdet` are only assigned on some boundary
conditions, hence they are `Option`-valued; `none` models the absent
attribute (reading it raises `AttributeError`). -/
structure GMRFAttrs (n : ℕ) where
  mean : Vec n
  prec : ℚ
  Npart : ℕ
  BCs : String
  Dmat : (r : ℕ) × Matrix (Fin r) (Fin n) ℚ
  Lmat : Mat n n
  rank : Option ℕ
  chol : Option (Matrix (Fin n) (Fin n) ℝ)
  L_eigval : Option ((k : ℕ) × (Fin k → ℝ))
  logdet : Option ℝ

/-- The 1D difference matrix selected by `GMRF.__init__` from the boundary
condition string (lines 215-233); unrecognized strings raise
`TypeError('Unexpected BC type ...')`. -/
def gmrfD1 (N : ℕ) (BCs : String) : Except PyErr ((r : ℕ) × Matrix (Fin r) (Fin N) ℚ) :=
  if BCs = "zero" then .ok ⟨N + 1, diffZero N⟩
  else if BCs = "periodic" then .ok ⟨N + 1, diffPeriodic N⟩
  else if BCs = "neumann" then .ok ⟨N, gmrfNeumannD N⟩
  else if BCs = "none" then .ok ⟨N, 1⟩
  else .error (.typeError "Unexpected BC type (choose from zero, periodic, neumann or none)")

/-- Lines 259-277 of `GMRF.__init__`: compute `rank`, `chol`, `L_eigval` and
`logdet` from the structure matrix `L`.  For `zero` the Cholesky factor of
`L` itself is used; for `periodic`/`neumann` the factor of the regularized
`L + √eps·I` is, and the log-determinant is the partial-eigenvalue sum when
`dim ≤ 5000` and the Cholesky-diagonal approximation when `dim > 5000`.
For any other (recognized) boundary condition these attributes stay absent. -/
def gmrfFinish (nl : NumLib) {n : ℕ} (mean : Vec n) (prec : ℚ) (Npart : ℕ)
    (BCs : String) (Dm : (r : ℕ) × Matrix (Fin r) (Fin n) ℚ) (L : Mat n n) :
    GMRFAttrs n :=
  if BCs = "zero" then
    let ch := nl.spchol n L
    ⟨mean, prec, Npart, BCs, Dm, L, some n, some ch, none,
      some (2 * ∑ i, nl.lg (ch i i))⟩
  else if BCs = "periodic" ∨ BCs = "neumann" then
    let ch := nl.spchol n (L + sqrtEps • (1 : Mat n n))
    if 5000 < n then
      ⟨mean, prec, Npart, BCs, Dm, L, some (n - 1), some ch, none,
        some (2 * ∑ i, nl.lg (ch i i))⟩
    else
      let ev := nl.eigshLM n L (n - 1)
      ⟨mean, prec, Npart, BCs, Dm, L, some (n - 1), some ch, some ⟨n - 1, ev⟩,
        some (∑ i, nl.lg (ev i))⟩
  else
    ⟨mean, prec, Npart, BCs, Dm, L, none, none, none, none⟩

/-- `GMRF.__init__` with spatial dimension `dom = 1`: the structure matrix is
`L = Dᵀ·D` (line 239). -/
def GMRF_init1 (nl : NumLib) {N : ℕ} (mean : Vec N) (prec : ℚ) (BCs : String) :
    Except PyErr (GMRFAttrs N) :=
  (gmrfD1 N BCs).map fun Dm =>
    gmrfFinish nl mean prec N BCs Dm ((Dm.2)ᵀ * Dm.2)

/-- Row-major flattening `(i, j) ↦ j + n·i` of a 2D grid index, the order
`scipy.sparse.kron` uses. -/
def rowMajor (m n : ℕ) : Fin m × Fin n ≃ Fin (m * n) := finProdFinEquiv

/-- Vertical stacking of two matrices (scipy.sparse.vstack). -/
def vstack {m₁ m₂ n : Type} {α : Type} (A : Matrix m₁ n α)
    (B : Matrix m₂ n α) : Matrix (m₁ ⊕ m₂) n α :=
  Matrix.of (Sum.elim A B)

/-- `GMRF.__init__` with spatial dimension `dom = 2` (lines 240-246):
`Ds = kron(I, Dmat)`, `Dt = kron(Dmat, I)`, `D = vstack([Ds, Dt])` and
`L = Dsᵀ·Ds + Dtᵀ·Dt`, flattened to `Fin (N*N)` indices in scipy's
row-major order. -/
def GMRF_init2 (nl : NumLib) {N : ℕ} (mean : Vec (N * N)) (prec : ℚ) (BCs : String) :
    Except PyErr (GMRFAttrs (N * N)) :=
  (gmrfD1 N BCs).map fun (Dm : (r : ℕ) × Matrix (Fin r) (Fin N) ℚ) =>
    let Ds := Matrix.kroneckerMap (· * ·) (1 : Mat N N) Dm.2
    let Dt := Matrix.kroneckerMap (· * ·) Dm.2 (1 : Mat N N)
    let L₂ := Dsᵀ * Ds + Dtᵀ * Dt
    let er : (Fin N × Fin Dm.1) ⊕ (Fin Dm.1 × Fin N) ≃ Fin (N * Dm.1 + Dm.1 * N) :=
      (Equiv.sumCongr (rowMajor N Dm.1) (rowMajor Dm.1 N)).trans finSumFinEquiv
    let ec := rowMajor N N
    gmrfFinish nl mean prec N BCs
      ⟨N * Dm.1 + Dm.1 * N, Matrix.reindex er ec (vstack Ds Dt)⟩
      (Matrix.reindex ec ec L₂)

/-- The flattened 2D difference operator `vstack(kron(I,D), kron(D,I))` built
by `GMRF.__init__` for `dom = 2`, an abbreviation for the `Dmat` field that
`GMRF_init2` stores. -/
def gmrfD2 {N r : ℕ} (D : Matrix (Fin r) (Fin N) ℚ) :
    Matrix (Fin (N * r + r * N)) (Fin (N * N)) ℚ :=
  Matrix.reindex ((Equiv.sumCongr (rowMajor N r) (rowMajor r N)).trans finSumFinEquiv)
    (rowMajor N N)
    (vstack (Matrix.kroneckerMap (· * ·) (1 : Mat N N) D)
      (Matrix.kroneckerMap (· * ·) D (1 : Mat N N)))

/-- The flattened 2D structure matrix `kron(I,D)ᵀ·kron(I,D) + kron(D,I)ᵀ·kron(D,I)`
built by `GMRF.__init__` for `dom = 2`, an abbreviation for the `Lmat` field that
`GMRF_init2` stores. -/
def gmrfL2 {N r : ℕ} (D : Matrix (Fin r) (Fin N) ℚ) : Mat (N * N) (N * N) :=
  Matrix.reindex (rowMajor N N) (rowMajor N N)
    ((Matrix.kroneckerMap (· * ·) (1 : Mat N N) D)ᵀ * Matrix.kroneckerMap (· * ·) (1 : Mat N N) D
      + (Matrix.kroneckerMap (· * ·) D (1 : Mat N N))ᵀ * Matrix.kroneckerMap (· * ·) D (1 : Mat N N))

/-- `GMRF.logpdf` (lines 279-284) for a single state vector: the constant
term reads `self.rank` and `self.logdet`, so for boundary condition `none`
it raises `AttributeError` on `rank` before anything else. -/
noncomputable def gmrfLogpdf (nl : NumLib) {n : ℕ} (g : GMRFAttrs n) (x : Vec n) : Except PyErr ℝ :=
  match g.rank with
  | none => .error (.attributeError "rank")
  | some r =>
    match g.logdet with
    | none => .error (.attributeError "logdet")
    | some ld =>
      let c : ℝ := (1 / 2) * ((r : ℝ) * (nl.lg (g.prec : ℝ) - nl.lg (2 * nl.piv)) + ld)
      let q : ℚ := Matrix.dotProduct (x - g.mean) (g.Lmat *ᵥ (x - g.mean))
      .ok (c - (1 / 2) * (g.prec : ℝ) * (q : ℝ))

/-- `GMRF.pdf` (lines 286-288): `exp(logpdf(x))`, propagating any exception
raised by `logpdf`. -/
noncomputable def gmrfPdf (nl : NumLib) {n : ℕ} (g : GMRFAttrs n) (x : Vec n) : Except PyErr ℝ :=
  (gmrfLogpdf nl g x).map nl.ex

/-- Pad the stored partial eigenvalue array by repeating its last entry,
`np.hstack([self.L_eigval, self.L_eigval[-1]])`, read at flat index `i`. -/
def padEig {k : ℕ} (ev : Fin k → ℝ) (i : ℕ) : ℝ :=
  if h : i < k then ev ⟨i, h⟩
  else if h0 : 0 < k then ev ⟨k - 1, Nat.sub_lt h0 Nat.one_pos⟩ else 0

/-- `GMRF.sample` (lines 290-313).  The caller supplies the standard-normal
draws: `ξr`/`ξi` are the real and imaginary noise of size `dim × Ns` and `ξd`
the noise of size `D.shape[0] × Ns` used by the `neumann` branch.  The
`periodic` branch reads `self.L_eigval`, raising `AttributeError` when that
attribute was never assigned; unrecognized (or `none`) boundary conditions
raise the descriptive `TypeError`. -/
noncomputable def gmrfSample (nl : NumLib) {n : ℕ} (g : GMRFAttrs n) (Ns : ℕ)
    (ξr ξi : Fin Ns → Fin n → ℝ) (ξd : Fin Ns → Fin g.Dmat.1 → ℝ) :
    Except PyErr (Fin Ns → Fin n → ℝ) :=
  if g.BCs = "zero" then
    match g.chol with
    | none => .error (.attributeError "chol")
    | some ch =>
      .ok fun s i => (g.mean i : ℝ) + (1 / nl.sqr (g.prec : ℝ)) * nl.spsolveR n chᵀ (ξr s) i
  else if g.BCs = "periodic" then
    match g.L_eigval with
    | none => .error (.attributeError "L_eigval")
    | some ev =>
      let F := nl.dft n
      let eigv : Fin n → ℝ := fun i => padEig ev.2 (i : ℕ)
      let Lsqrt : Matrix (Fin n) (Fin n) ℝ := Matrix.diagonal fun i => nl.sqr (eigv i)
      let xi : Fin Ns → Fin n → ℂ := fun s i => ⟨ξr s i, ξi s i⟩
      .ok fun s i =>
        (g.mean i : ℝ) +
          (1 / nl.sqr (g.prec : ℝ)) *
            ((F.map (starRingEnd ℂ) *ᵥ nl.spsolveC n Lsqrt (xi s)) i).re
  else if g.BCs = "neumann" then
    match g.chol with
    | none => .error (.attributeError "chol")
    | some ch =>
      .ok fun s i =>
        (g.mean i : ℝ) +
          (1 / nl.sqr (g.prec : ℝ)) *
            nl.spsolveR n chᵀ
              (nl.spsolveR n ch ((g.Dmat.2.map Rat.cast)ᵀ *ᵥ ξd s)) i
  else .error (.typeError "Unexpected BC type (choose from zero, periodic, neumann or none)")

/-! ### Gaussian (src/cuqi/distribution.py lines 141-203)

Only the array-valued `std` branch of `Gaussian.__init__` (lines 151-161) is
embedded; the scalar branch (lines 162-172) differs only in replacing `std`
by `std*np.ones(dim)` and in the unused `det` attribute. -/

/-- The `mean` argument of `Gaussian`: either a fixed vector or a callable
(the forward model), as tested by `callable(self.mean)` in `logpdf`. -/
inductive GaussMean (m n : ℕ) where
  | vec (v : Vec m) : GaussMean m n
  | fn (f : Vec n → Vec m) : GaussMean m n

/-- Decidable check `np.count_nonzero(corrmat - np.diag(np.diagonal(corrmat))) == 0`:
the correlation matrix is diagonal (uncorrelated case). -/
def isDiag {m : ℕ} (R : Mat m m) : Bool :=
  decide (∀ i j, i ≠ j → R i j = 0)

/-- Instance attributes of a constructed `Gaussian` object (array-std case):
the covariance, log-determinant, Cholesky factor and its inverse are computed
once at construction and stored. -/
structure GaussianCls (m n : ℕ) where
  mean : GaussMean m n
  std : Vec m
  R : Mat m m
  Sigma : Mat m m
  logdet : ℝ
  Lfac : Matrix (Fin m) (Fin m) ℝ
  Linv : Matrix (Fin m) (Fin m) ℝ

/-- `Gaussian.__init__` for an array `std` (lines 143-175): covariance
`Σ = diag(std)·(corrmat·diag(std))`; in the uncorrelated case the
log-determinant shortcut `sum(2·log(std))` is used, otherwise
`2·sum(log(diag(L)))` with `L = np.linalg.cholesky(Σ)`; finally
`Linv = np.linalg.inv(L)`. -/
noncomputable def gaussianInit (nl : NumLib) {m n : ℕ} (mean : GaussMean m n)
    (std : Vec m) (R : Mat m m) : Except PyErr (GaussianCls m n) :=
  let Sigma := Matrix.diagonal std * (R * Matrix.diagonal std)
  if isDiag R then
    (nl.npchol m Sigma).map fun L =>
      ⟨mean, std, R, Sigma, ∑ i, 2 * nl.lg (std i), L, nl.npinvR m L⟩
  else
    (nl.npchol m Sigma).map fun L =>
      ⟨mean, std, R, Sigma, 2 * ∑ i, nl.lg (L i i), L, nl.npinvR m L⟩

/-- `Gaussian.logpdf(x1, *x2)` (lines 183-191) for a single data vector `x1`
and parameter `x2`: `μ` is `mean(x2)` when the mean is callable, the quadratic
form is `‖(x1-μ)·L⁻ᵀ‖²`, and the result is
`-½(logdet + quadform + dim·log(2π))`. -/
noncomputable def gaussLogpdf (nl : NumLib) {m n : ℕ} (g : GaussianCls m n)
    (x1 : Vec m) (x2 : Vec n) : ℝ :=
  let mu : Vec m := match g.mean with
    | .vec v => v
    | .fn f => f x2
  let xLinv : Fin m → ℝ := (fun i => ((x1 i - mu i : ℚ) : ℝ)) ᵥ* g.Linvᵀ
  let quadform : ℝ := ∑ i, (xLinv i) ^ 2
  let res : ℝ := -(1 / 2 : ℝ) * (g.logdet + quadform + (m : ℝ) * nl.lg (2 * nl.piv))
  res

/-! ### Difference-penalized distributions (src/cuqi/distribution.py 13-56, 318-361) -/

/-- The finite-difference operator selected by `Cauchy_diff.__init__` and
`Laplace_diff.__init__` from the boundary-condition string (lines 21-41 and
326-346).  The `if/elif` chain has no `else`: for an unrecognized string the
local `Dmat` is never assigned and the subsequent `self.D = Dmat` raises
`UnboundLocalError`. -/
def diffOperator (bnd : String) (n : ℕ) : Except PyErr ((r : ℕ) × Matrix (Fin r) (Fin n) ℚ) :=
  if bnd = "zero" then .ok ⟨n + 1, diffZero n⟩
  else if bnd = "periodic" then .ok ⟨n + 1, diffPeriodic n⟩
  else if bnd = "neumann" then .ok ⟨n - 1, diffNeumann n⟩
  else if bnd = "backward" then .ok ⟨n, diffBackward n⟩
  else if bnd = "none" then .ok ⟨n, 1⟩
  else .error .unboundLocal

/-- Instance attributes of a constructed `Cauchy_diff` object. -/
structure CauchyDiffCls (n : ℕ) where
  loc : Vec n
  scale : ℚ
  bnd : String
  D : (r : ℕ) × Matrix (Fin r) (Fin n) ℚ

/-- `Cauchy_diff.__init__(location, scale, bndcond)` (lines 15-41). -/
def cauchyInit {n : ℕ} (loc : Vec n) (scale : ℚ) (bnd : String) :
    Except PyErr (CauchyDiffCls n) :=
  (diffOperator bnd n).map fun D => ⟨loc, scale, bnd, D⟩

/-- `Cauchy_diff.logpdf(x)` (lines 47-50):
`-len(Dx)·log(π) + Σᵢ (log(scale) - log(Dxᵢ² + scale²))` with `Dx = D(x-loc)`.
Note the π-coefficient is the row count of `D`, not the dimension `n`. -/
noncomputable def cauchyLogpdf (nl : NumLib) {n : ℕ} (c : CauchyDiffCls n) (x : Vec n) : ℝ :=
  let Dx : Fin c.D.1 → ℚ := c.D.2 *ᵥ (x - c.loc)
  let res : ℝ := -(c.D.1 : ℝ) * nl.lg nl.piv +
    ∑ i, (nl.lg (c.scale : ℝ) - nl.lg ((Dx i ^ 2 + c.scale ^ 2 : ℚ) : ℝ))
  res

/-- Instance attributes of a constructed `Laplace_diff` object. -/
structure LaplaceDiffCls (n : ℕ) where
  loc : Vec n
  scale : ℚ
  bnd : String
  D : (r : ℕ) × Matrix (Fin r) (Fin n) ℚ

/-- `Laplace_diff.__init__(location, scale, bndcond)` (lines 320-346); the
operator construction is duplicated verbatim from `Cauchy_diff`. -/
def laplaceInit {n : ℕ} (loc : Vec n) (scale : ℚ) (bnd : String) :
    Except PyErr (LaplaceDiffCls n) :=
  (diffOperator bnd n).map fun D => ⟨loc, scale, bnd, D⟩

/-- `Laplace_diff.logpdf(x)` (lines 352-354):
`len(Dx)·(-(log 2 + log scale)) - ‖Dx‖₁/scale`. -/
noncomputable def laplaceLogpdf (nl : NumLib) {n : ℕ} (c : LaplaceDiffCls n) (x : Vec n) : ℝ :=
  let Dx : Fin c.D.1 → ℚ := c.D.2 *ᵥ (x - c.loc)
  (c.D.1 : ℝ) * (-(nl.lg 2 + nl.lg (c.scale : ℝ))) - ((∑ i, |Dx i| : ℚ) : ℝ) / (c.scale : ℝ)

/-! ### numpy exact linear algebra (np.linalg.inv / np.linalg.solve)

Over exact rationals the inverse of a nonsingular matrix is
`det⁻¹ • adjugate`; numpy raises `LinAlgError` on a singular input. -/

/-- Exact matrix inverse, `det⁻¹ • adjugate`; agrees with Mathlib's `M⁻¹`. -/
def ratInv {k : ℕ} (M : Mat k k) : Mat k k := (M.det)⁻¹ • M.adjugate

/-- `np.linalg.inv`: raises `LinAlgError` on a singular matrix. -/
def npInvQ {k : ℕ} (M : Mat k k) : Except PyErr (Mat k k) :=
  if M.det = 0 then .error .linAlgError else .ok (ratInv M)

/-- `np.linalg.solve`: raises `LinAlgError` on a singular matrix. -/
def npSolveQ {k : ℕ} (M : Mat k k) (v : Vec k) : Except PyErr (Vec k) :=
  if M.det = 0 then .error .linAlgError else .ok (ratInv M *ᵥ v)

/-! ### Bayesian model and dispatch (src/cuqi/problem.py)

Python dispatches on `isinstance`; crucially `GMRF` is declared as
`class GMRF(Gaussian)`, so a GMRF instance satisfies
`isinstance(·, Gaussian)` while carrying no `Sigma` attribute
(`GMRF.__init__` never calls `Gaussian.__init__`). -/

/-- A distribution instance of dimension `d` (with callable means taking a
`p`-dimensional argument), as stored in the `likelihood`/`prior` slots of a
`BayesianModel`.  `other` stands for any of the remaining classes
(`Normal`, `Gamma`, `Uniform`, ...), recording only the type name. -/
inductive Dist (d p : ℕ) where
  | gaussian (g : GaussianCls d p) : Dist d p
  | gmrf (g : GMRFAttrs d) : Dist d p
  | cauchy (c : CauchyDiffCls d) : Dist d p
  | laplace (c : LaplaceDiffCls d) : Dist d p
  | other (typename : String) : Dist d p

/-- The forward model slot.  `linearModel` is modelled from the spec:
`cuqi.model.LinearModel` is not under src/, its contract (§6 of the spec) is
`get_matrix() -> matrix` with `forward(x) = A x`.  `otherModel` stands for
any non-linear model object. -/
inductive FwdModel (m n : ℕ) where
  /-- Modelled from the spec: `cuqi.model.LinearModel(A)` exposing `get_matrix()`. -/
  | linearModel (A : Mat m n) : FwdModel m n
  | otherModel (typename : String) (f : Vec n → Vec m) : FwdModel m n

/-- The Python classes that `BayesianModel._check` tests against. -/
inductive DClass where
  | gaussianC | gmrfC | cauchyC | laplaceC
deriving DecidableEq

/-- `isinstance(dist, cls)`; a `GMRF` instance is also a `Gaussian` instance
because `GMRF` subclasses `Gaussian`. -/
def distIsInst {d p : ℕ} (x : Dist d p) (cls : DClass) : Bool :=
  match cls, x with
  | .gaussianC, .gaussian _ => true
  | .gaussianC, .gmrf _ => true
  | .gmrfC, .gmrf _ => true
  | .cauchyC, .cauchy _ => true
  | .laplaceC, .laplace _ => true
  | _, _ => false

/-- `isinstance(model, LinearModel)`; `None` is not an instance. -/
def modelIsLinear {m n : ℕ} : Option (FwdModel m n) → Bool
  | some (.linearModel _) => true
  | _ => false

/-- `BayesianModel` (problem.py lines 13-43): likelihood over the data space
(dimension `m`), prior over the parameter space (dimension `n`), optional
forward model, and observed data. -/
structure BayesModel (m n : ℕ) where
  likelihood : Dist m n
  prior : Dist n n
  model : Option (FwdModel m n)
  data : Vec m

/-- `BayesianModel._check(distL, distP, typeModel)` (lines 91-98): the
likelihood and prior are instances of the two given classes and, when a
model class is given, the model is an instance of it. -/
def bmCheck {m n : ℕ} (bm : BayesModel m n) (distL distP : DClass)
    (typeModel : Bool) : Bool :=
  distIsInst bm.likelihood distL && distIsInst bm.prior distP &&
    (!typeModel || modelIsLinear bm.model)

/-- The rendering of `type(x)` used in the error f-strings, with the class
name fully qualified as CPython prints it. -/
def distTypeName {d p : ℕ} : Dist d p → String
  | .gaussian _ => "cuqi.distribution.Gaussian"
  | .gmrf _ => "cuqi.distribution.GMRF"
  | .cauchy _ => "cuqi.distribution.Cauchy_diff"
  | .laplace _ => "cuqi.distribution.Laplace_diff"
  | .other s => s

/-- Rendering of `type(self.model)`. -/
def modelTypeName {m n : ℕ} : Option (FwdModel m n) → String
  | none => "NoneType"
  | some (.linearModel _) => "cuqi.model.LinearModel"
  | some (.otherModel s _) => s

/-- The `NotImplementedError` message of `MAP` (line 62), naming the
concrete types of model, likelihood and prior. -/
def mapErrMsg (mT lT pT : String) : String :=
  "MAP estimate is not implemented in Type1 problem for model: " ++ mT ++
    ", likelihood: " ++ lT ++ " and prior: " ++ pT ++
    ". Check documentation for available combinations."

/-- The `NotImplementedError` message of `sample_posterior` (line 77). -/
def samplerErrMsg (mT lT pT : String) : String :=
  "Sampler is not implemented in Type1 problem for model: " ++ mT ++
    ", likelihood: " ++ lT ++ " and prior: " ++ pT ++
    ". Check documentation for available combinations."

/-- Reading `self.likelihood.Sigma` / `self.prior.Sigma`: only a proper
`Gaussian` instance has the `Sigma` attribute; in particular a `GMRF`
(whose `__init__` never sets it) raises `AttributeError`. -/
def distSigma {d p : ℕ} : Dist d p → Except PyErr (Mat d d)
  | .gaussian g => .ok g.Sigma
  | _ => .error (.attributeError "Sigma")

/-- Reading `self.prior.mean` as a vector.  A callable Gaussian mean is a
function object; using it as a vector fails downstream, modelled as an
immediate `TypeError`.  A `GMRF` stores its mean (reshaped to a column,
irrelevant here); `Cauchy_diff`/`Laplace_diff` have no `mean` attribute. -/
def distMeanVec {d p : ℕ} : Dist d p → Except PyErr (Vec d)
  | .gaussian g =>
    match g.mean with
    | .vec v => .ok v
    | .fn _ => .error (.typeError "unsupported operand type(s): callable mean")
  | .gmrf g => .ok g.mean
  | _ => .error (.attributeError "mean")

/-- `self.model.get_matrix()`. -/
def modelMatrix {m n : ℕ} : Option (FwdModel m n) → Except PyErr (Mat m n)
  | some (.linearModel A) => .ok A
  | some (.otherModel _ _) => .error (.attributeError "get_matrix")
  | none => .error (.attributeError "get_matrix")

/-- `BayesianModel.MAP` (problem.py lines 45-62).  When
`_check(Gaussian, Gaussian, LinearModel)` passes, the closed-form estimate
`x0 + Cx·Aᵀ·solve(A·Cx·Aᵀ + Ce, b - A·x0)` is computed; attribute fetches
happen in source order (`Ce` before `x0` before `Cx`), so a GMRF likelihood
or prior slips through the `isinstance` test and dies on the missing `Sigma`.
Otherwise the `NotImplementedError` naming the three types is raised. -/
def bmMAP {m n : ℕ} (bm : BayesModel m n) : Except PyErr (Vec n) :=
  if bmCheck bm .gaussianC .gaussianC true then do
    let b := bm.data
    let A ← modelMatrix bm.model
    let Ce ← distSigma bm.likelihood
    let x0 ← distMeanVec bm.prior
    let Cx ← distSigma bm.prior
    let rhs := b - A *ᵥ x0
    let sysm := A * Cx * Aᵀ + Ce
    let y ← npSolveQ sysm rhs
    .ok (x0 + Cx *ᵥ (Aᵀ *ᵥ y))
  else
    .error (.notImplementedError
      (mapErrMsg (modelTypeName bm.model) (distTypeName bm.likelihood)
        (distTypeName bm.prior)))

/-- Result of `sample_posterior`: either the samples produced by the
map-plus-Cholesky closed form, or a record of the external sampler invoked
(`cuqi.sampler.CWMH` / `cuqi.sampler.pCN`, not under src/) together with
the exact target, scale, initial state and burn-in passed to it. -/
inductive SpResult (m n Ns : ℕ) where
  /-- `Samples(x_s)` from `_sampleMapCholesky`. -/
  | samples (xs : Fin Ns → Fin n → ℝ) : SpResult m n Ns
  /-- Dispatch to component-wise Metropolis: target, per-coordinate initial
  scale, initial state, and burn-in `Nb` passed to `sample_adapt(Ns, Nb)`. -/
  | cwmh (target : Vec n → Except PyErr ℝ) (scale x0 : Vec n) (Nb : ℕ) : SpResult m n Ns
  /-- Dispatch to preconditioned Crank-Nicolson: target, scalar scale,
  initial state, and burn-in passed to `sample(Ns, 0)`. -/
  | pcn (target : Vec n → Except PyErr ℝ) (scale : ℚ) (x0 : Vec n) (Nb : ℕ) : SpResult m n Ns

/-- `self.likelihood.logpdf(self.data, x)` as called in the CWMH/pCN targets.
For a proper Gaussian this is `Gaussian.logpdf(data, x)`; for a GMRF it is a
call of `GMRF.logpdf(self, x)` with two positional arguments, a `TypeError`. -/
noncomputable def likLogpdf (nl : NumLib) {m n : ℕ} (lik : Dist m n) (data : Vec m)
    (x : Vec n) : Except PyErr ℝ :=
  match lik with
  | .gaussian g => .ok (gaussLogpdf nl g data x)
  | .gmrf _ => .error (.typeError "logpdf() takes 2 positional arguments but 3 were given")
  | _ => .error (.attributeError "logpdf")

/-- `self.prior.logpdf(x)` as called in the CWMH target. -/
noncomputable def priorLogpdf (nl : NumLib) {n : ℕ} (pr : Dist n n) (x : Vec n) :
    Except PyErr ℝ :=
  match pr with
  | .cauchy c => .ok (cauchyLogpdf nl c x)
  | .laplace c => .ok (laplaceLogpdf nl c x)
  | .gaussian g =>
    match g.mean with
    | .vec _ => .ok (gaussLogpdf nl g x x)
    | .fn _ => .error (.typeError "tuple index out of range")
  | .gmrf g => gmrfLogpdf nl g x
  | .other _ => .error (.attributeError "logpdf")

/-- The burn-in `Nb = int(0.2*Ns)` of `_sampleCWMH` (line 142): the floor of
one fifth of `Ns` (exact for every feasible `Ns`; `0.2*Ns` in binary floating
point never rounds across an integer boundary below `2⁵³`). -/
def cwmhBurnIn (Ns : ℕ) : ℕ := Ns / 5

/-- `BayesianModel._sampleCWMH(Ns)` (lines 128-147): target
`likelihood.logpdf(data, x) + prior.logpdf(x)`, per-coordinate initial scale
`0.05*ones(n)`, initial state `0.5*ones(n)`, burn-in `int(0.2*Ns)`. -/
noncomputable def bmSampleCWMH (nl : NumLib) {m n : ℕ} (bm : BayesModel m n) (Ns : ℕ) :
    Except PyErr (SpResult m n Ns) :=
  .ok (.cwmh
    (fun x => do
      let l ← likLogpdf nl bm.likelihood bm.data x
      let p ← priorLogpdf nl bm.prior x
      .ok (l + p))
    (fun _ => 1 / 20) (fun _ => 1 / 2) (cwmhBurnIn Ns))

/-- `BayesianModel._samplepCN(Ns)` (lines 149-172): target
`likelihood.logpdf(data, x)` only, scale `0.02`, zero initial state, burn-in 0. -/
noncomputable def bmSamplePCN (nl : NumLib) {m n : ℕ} (bm : BayesModel m n) (Ns : ℕ) :
    Except PyErr (SpResult m n Ns) :=
  .ok (.pcn (fun x => likLogpdf nl bm.likelihood bm.data x) (1 / 50) (fun _ => 0) 0)

/-- `BayesianModel._sampleMapCholesky(Ns)` (lines 100-126): recompute the MAP
estimate, form the posterior covariance
`C = inv(Aᵀ·inv(Ce)·A + inv(Cx))`, take `L = np.linalg.cholesky(C)` and emit
`x_map + L·ξₛ` for the supplied standard-normal draws `ξ`.  After the sampling
loop the progress `print` reads the loop variable `s`; for `Ns = 0` the loop
never ran and this raises `UnboundLocalError`. -/
noncomputable def bmSampleMapCholesky (nl : NumLib) {m n : ℕ} (bm : BayesModel m n)
    (Ns : ℕ) (ξ : Fin Ns → Fin n → ℝ) : Except PyErr (SpResult m n Ns) := do
  let _b := bm.data
  let A ← modelMatrix bm.model
  let Ce ← distSigma bm.likelihood
  let _x0 ← distMeanVec bm.prior
  let Cx ← distSigma bm.prior
  let xmap ← bmMAP bm
  let CeInv ← npInvQ Ce
  let CxInv ← npInvQ Cx
  let C ← npInvQ (Aᵀ * (CeInv * A) + CxInv)
  let L ← nl.npchol n C
  if Ns = 0 then .error .unboundLocal
  else .ok (.samples fun s i => ((xmap i : ℝ) + (L *ᵥ fun j => ξ s j) i))

/-- `BayesianModel.sample_posterior(Ns)` (lines 64-77): the ordered
`isinstance` dispatch.  Branch 1 requires a linear model with Gaussian
likelihood and Gaussian — but not GMRF — prior; branch 2 catches Cauchy- and
Laplace-difference priors; branch 3 the remaining Gaussian/Gaussian pairs;
and anything else raises the `NotImplementedError` naming the types. -/
noncomputable def bmSamplePosterior (nl : NumLib) {m n : ℕ} (bm : BayesModel m n)
    (Ns : ℕ) (ξ : Fin Ns → Fin n → ℝ) : Except PyErr (SpResult m n Ns) :=
  if bmCheck bm .gaussianC .gaussianC true && !(bmCheck bm .gaussianC .gmrfC false) then
    bmSampleMapCholesky nl bm Ns ξ
  else if bmCheck bm .gaussianC .cauchyC false || bmCheck bm .gaussianC .laplaceC false then
    bmSampleCWMH nl bm Ns
  else if bmCheck bm .gaussianC .gaussianC false then
    bmSamplePCN nl bm Ns
  else
    .error (.notImplementedError
      (samplerErrMsg (modelTypeName bm.model) (distTypeName bm.likelihood)
        (distTypeName bm.prior)))

/-! ### Concrete instances used by witnesses and counterexamples -/

/-- A concrete instantiation of the external-library record (the abstract
fields are irrelevant to the dispatch logic; they are set to simple
constants). -/
noncomputable def zeroNumLib : NumLib :=
  ⟨fun _ => 0, fun _ => 0, 0, fun _ => 0, fun _ _ => .ok 1, fun _ _ => 1,
    fun _ _ => 1, fun _ _ _ _ => 0, fun _ _ v => v, fun _ _ v => v, fun _ => 1⟩

/-- A one-dimensional Gaussian instance with unit covariance. -/
noncomputable def unitGauss1 : GaussianCls 1 1 :=
  ⟨.vec 0, fun _ => 1, 1, 1, 0, 1, 1⟩

/-- A one-dimensional GMRF instance (attribute values irrelevant to the
dispatch claims). -/
def gmrfJunk1 : GMRFAttrs 1 :=
  ⟨0, 1, 1, "none", ⟨1, 1⟩, 1, none, none, none, none⟩

/-- A one-dimensional Cauchy-difference instance with `zero` boundary. -/
def cauchy1 : CauchyDiffCls 1 := ⟨0, 1, "zero", ⟨2, diffZero 1⟩⟩

/-- A one-dimensional Laplace-difference instance with `zero` boundary. -/
def laplace1 : LaplaceDiffCls 1 := ⟨0, 1, "zero", ⟨2, diffZero 1⟩⟩

/-- Bayesian model: Gaussian likelihood, Gaussian prior, linear model. -/
noncomputable def bmGGL : BayesModel 1 1 :=
  ⟨.gaussian unitGauss1, .gaussian unitGauss1, some (.linearModel 1), 0⟩

/-- Bayesian model with a GMRF prior and a linear model: passes the
`isinstance(·, Gaussian)` test yet carries no `Sigma`. -/
noncomputable def bmGmrfPrior : BayesModel 1 1 :=
  ⟨.gaussian unitGauss1, .gmrf gmrfJunk1, some (.linearModel 1), 0⟩

/-- Bayesian model with a Gamma prior: no dispatch rule applies. -/
noncomputable def bmGamma : BayesModel 1 1 :=
  ⟨.gaussian unitGauss1, .other "cuqi.distribution.Gamma", none, 0⟩

/-- Bayesian model with a Cauchy-difference prior. -/
noncomputable def bmCauchy : BayesModel 1 1 :=
  ⟨.gaussian unitGauss1, .cauchy cauchy1, none, 0⟩

/-- Bayesian model with a Laplace-difference prior. -/
noncomputable def bmLaplace : BayesModel 1 1 :=
  ⟨.gaussian unitGauss1, .laplace laplace1, none, 0⟩

/-- Row count of the difference operator built by `Cauchy_diff.__init__` /
`Laplace_diff.__init__` for each recognized boundary condition: `dim+1` for
`zero`/`periodic`, `dim-1` for `neumann`, `dim` for `backward`/`none`. -/
def cauchyRowCount (bnd : String) (n : ℕ) : ℕ :=
  if bnd = "zero" ∨ bnd = "periodic" then n + 1
  else if bnd = "neumann" then n - 1
  else n

/-- The external-library record with the analytic fields pinned to their
mathematical meanings (`np.log = Real.log`, `np.pi = Real.pi`, ...); the
linear-algebra oracles are set to simple constants. -/
noncomputable def realNumLib : NumLib :=
  ⟨Real.log, Real.exp, Real.pi, Real.sqrt, fun _ _ => .ok 1, fun _ _ => 1,
    fun _ _ => 1, fun _ _ _ _ => 0, fun _ _ v => v, fun _ _ v => v, fun _ => 1⟩

/-- The `Cauchy_diff` instance with location `0 ∈ ℚ²`, scale 1 and `zero`
boundary condition (its operator has 3 = dim+1 rows). -/
def cauchyZero2 : CauchyDiffCls 2 := ⟨0, 1, "zero", ⟨3, diffZero 2⟩⟩

/-- A concretely constructed one-dimensional Gaussian with standard
deviation 2 and identity correlation, built through `gaussianInit`. -/
noncomputable def c7g : GaussianCls 1 1 :=
  (gaussianInit realNumLib (.vec 0) (fun _ => 2) (1 : Mat 1 1)).toOption.getD
    ⟨.vec 0, 0, 0, 0, 0, 0, 0⟩

/-- A placeholder `GMRFAttrs` record (used only as the default of `getD`). -/
def gmrfJunk (n : ℕ) : GMRFAttrs n :=
  ⟨0, 0, 0, "", ⟨0, (0 : Matrix (Fin 0) (Fin n) ℚ)⟩, 0, none, none, none, none⟩

/-- External-library record whose `np.log` is the constant-one function;
used to separate the two log-determinant formulas numerically. -/
noncomputable def oneLogNumLib : NumLib :=
  ⟨fun _ => 1, fun _ => 0, 0, fun _ => 0, fun _ _ => .ok 1, fun _ _ => 1,
    fun _ _ => 1, fun _ _ _ _ => 0, fun _ _ v => v, fun _ _ v => v, fun _ => 1⟩

/-- Concrete periodic 1D GMRF of dimension 2 (below the 5000 threshold). -/
noncomputable def c4wg : GMRFAttrs 2 :=
  (GMRF_init1 zeroNumLib (0 : Vec 2) 1 "periodic").toOption.getD (gmrfJunk 2)

/-- Concrete periodic 1D GMRF of dimension exactly 5000 (the threshold). -/
noncomputable def c4cg : GMRFAttrs 5000 :=
  (GMRF_init1 oneLogNumLib (0 : Vec 5000) 1 "periodic").toOption.getD (gmrfJunk 5000)

/-- Concrete periodic 1D GMRF of dimension 5001 (above the threshold). -/
noncomputable def c10g : GMRFAttrs 5001 :=
  (GMRF_init1 zeroNumLib (0 : Vec 5001) 1 "periodic").toOption.getD (gmrfJunk 5001)

/-- Concrete 2D GMRF with boundary condition `none` and partition size 2. -/
noncomputable def c9g : GMRFAttrs (2 * 2) :=
  (GMRF_init2 zeroNumLib (0 : Vec (2 * 2)) 1 "none").toOption.getD (gmrfJunk (2 * 2))

/-! ## Theorems -/

/-- Reduction of the `Except` monad's bind on a success value. -/
@[simp] theorem exceptBindOk {ε α β : Type} (a : α) (f : α → Except ε β) :
    (Except.ok a : Except ε α) >>= f = f a := rfl

/-- Reduction of the `Except` monad's bind on an error value. -/
@[simp] theorem exceptBindErr {ε α β : Type} (e : ε) (f : α → Except ε β) :
    (Except.error e : Except ε α) >>= f = Except.error e := rfl

/-- The exact rational inverse used by the embedded `np.linalg.inv` and
`np.linalg.solve` agrees with Mathlib's matrix inverse. -/
theorem ratInv_eq_inv {k : ℕ} (M : Mat k k) : ratInv M = M⁻¹ := by
  rw [ratInv, Matrix.inv_def, Ring.inverse_eq_inv']

/-! ### C2: MAP dispatch -/

/-- C2 (corrected).  `MAP()` returns the closed-form estimate
`x0 + Cx·Aᵀ·(A·Cx·Aᵀ + Ce)⁻¹·(b - A·x0)` when likelihood and prior are proper
`Gaussian` instances (with a vector prior mean) and the model is a
`LinearModel` (part 1); when the `isinstance` test
`_check(Gaussian, Gaussian, LinearModel)` fails it raises the
`NotImplementedError` naming the concrete types of model, likelihood and
prior (part 2).  But — contrary to the claim as stated — a `GMRF` in the
likelihood or prior slot passes the `isinstance` test (GMRF subclasses
Gaussian) and `MAP` then fails with `AttributeError` on the missing `Sigma`
attribute instead of a not-implemented error (part 3). -/
theorem bmMAP_spec {m n : ℕ} (bm : BayesModel m n) :
    (∀ (g : GaussianCls m n) (gp : GaussianCls n n) (A : Mat m n) (x0 : Vec n),
      bm.likelihood = .gaussian g → bm.prior = .gaussian gp →
      bm.model = some (.linearModel A) → gp.mean = .vec x0 →
      (A * gp.Sigma * Aᵀ + g.Sigma).det ≠ 0 →
      bmMAP bm = .ok (x0 + gp.Sigma *ᵥ (Aᵀ *ᵥ
        ((A * gp.Sigma * Aᵀ + g.Sigma)⁻¹ *ᵥ (bm.data - A *ᵥ x0))))) ∧
    (bmCheck bm .gaussianC .gaussianC true = false →
      bmMAP bm = .error (.notImplementedError
        (mapErrMsg (modelTypeName bm.model) (distTypeName bm.likelihood)
          (distTypeName bm.prior)))) ∧
    (∀ gm : GMRFAttrs m, bm.likelihood = .gmrf gm →
      distIsInst bm.prior .gaussianC = true → modelIsLinear bm.model = true →
      bmMAP bm = .error (.attributeError "Sigma")) ∧
    (∀ gm : GMRFAttrs n, bm.prior = .gmrf gm →
      distIsInst bm.likelihood .gaussianC = true → modelIsLinear bm.model = true →
      bmMAP bm = .error (.attributeError "Sigma")) := by
  refine ⟨?_, ?_, ?_, ?_⟩
  · intro g gp A x0 hl hp hm hmean hdet
    obtain ⟨lik, pr, mo, data⟩ := bm
    simp only at hl hp hm hdet ⊢
    subst hl; subst hp; subst hm
    simp only [bmMAP, bmCheck, distIsInst, modelIsLinear, Bool.and_self,
      Bool.and_true, Bool.true_and, Bool.not_true, Bool.false_or,
      modelMatrix, distSigma, distMeanVec, hmean, npSolveQ, exceptBindOk,
      if_neg hdet, ratInv_eq_inv, if_true]
  · intro h
    simp [bmMAP, h]
  · intro gm hl hp hm
    obtain ⟨A, hA⟩ : ∃ A, bm.model = some (.linearModel A) := by
      cases hmo : bm.model with
      | none => rw [hmo] at hm; simp [modelIsLinear] at hm
      | some mo =>
        cases mo with
        | linearModel A => exact ⟨A, rfl⟩
        | otherModel s f => rw [hmo] at hm; simp [modelIsLinear] at hm
    cases hpr : bm.prior with
    | gaussian g2 =>
      have hc : bmCheck bm .gaussianC .gaussianC true = true := by
        simp [bmCheck, hl, hA, hpr, distIsInst, modelIsLinear]
      simp [bmMAP, hc, hl, hA, modelMatrix, distSigma]
    | gmrf g2 =>
      have hc : bmCheck bm .gaussianC .gaussianC true = true := by
        simp [bmCheck, hl, hA, hpr, distIsInst, modelIsLinear]
      simp [bmMAP, hc, hl, hA, modelMatrix, distSigma]
    | cauchy c2 => rw [hpr] at hp; simp [distIsInst] at hp
    | laplace c2 => rw [hpr] at hp; simp [distIsInst] at hp
    | other s2 => rw [hpr] at hp; simp [distIsInst] at hp
  · intro gm hp hl hm
    obtain ⟨A, hA⟩ : ∃ A, bm.model = some (.linearModel A) := by
      cases hmo : bm.model with
      | none => rw [hmo] at hm; simp [modelIsLinear] at hm
      | some mo =>
        cases mo with
        | linearModel A => exact ⟨A, rfl⟩
        | otherModel s f => rw [hmo] at hm; simp [modelIsLinear] at hm
    cases hlik : bm.likelihood with
    | gaussian g =>
      have hc : bmCheck bm .gaussianC .gaussianC true = true := by
        simp [bmCheck, hlik, hA, hp, distIsInst, modelIsLinear]
      simp [bmMAP, hc, hlik, hp, hA, modelMatrix, distSigma, distMeanVec]
    | gmrf g =>
      have hc : bmCheck bm .gaussianC .gaussianC true = true := by
        simp [bmCheck, hlik, hA, hp, distIsInst, modelIsLinear]
      simp [bmMAP, hc, hlik, hp, hA, modelMatrix, distSigma]
    | cauchy c => rw [hlik] at hl; simp [distIsInst] at hl
    | laplace c => rw [hlik] at hl; simp [distIsInst] at hl
    | other s => rw [hlik] at hl; simp [distIsInst] at hl

/-- Witness for `bmMAP_spec`: each part applied at a concrete 1-dimensional
model, with every hypothesis discharged on concrete input. -/
theorem bmMAP_spec_witness :
    (((1 : Mat 1 1) * unitGauss1.Sigma * (1 : Mat 1 1)ᵀ + unitGauss1.Sigma).det ≠ 0 ∧
      bmMAP bmGGL = .ok ((0 : Vec 1) + unitGauss1.Sigma *ᵥ ((1 : Mat 1 1)ᵀ *ᵥ
        (((1 : Mat 1 1) * unitGauss1.Sigma * (1 : Mat 1 1)ᵀ + unitGauss1.Sigma)⁻¹ *ᵥ
          (bmGGL.data - (1 : Mat 1 1) *ᵥ (0 : Vec 1)))))) ∧
    (bmCheck bmGamma .gaussianC .gaussianC true = false ∧
      bmMAP bmGamma = .error (.notImplementedError
        (mapErrMsg "NoneType" "cuqi.distribution.Gaussian" "cuqi.distribution.Gamma"))) ∧
    bmMAP bmGmrfPrior = .error (.attributeError "Sigma") := by
  have hdet : ((1 : Mat 1 1) * unitGauss1.Sigma * (1 : Mat 1 1)ᵀ + unitGauss1.Sigma).det ≠ 0 := by
    simp [unitGauss1, Matrix.det_fin_one, Matrix.add_apply, Matrix.one_apply]
  refine ⟨⟨hdet, ?_⟩, ⟨rfl, ?_⟩, ?_⟩
  · exact (bmMAP_spec bmGGL).1 unitGauss1 unitGauss1 1 0 rfl rfl rfl rfl hdet
  · exact (bmMAP_spec bmGamma).2.1 rfl
  · exact (bmMAP_spec bmGmrfPrior).2.2.2 gmrfJunk1 rfl rfl rfl

/-- Counterexample to C2 as stated: with a Gaussian likelihood, a GMRF prior
and a linear model — a combination that is not "both general Gaussian" —
`MAP()` raises `AttributeError('Sigma')`, not the claimed
`NotImplementedError` naming the types (and not the closed form either). -/
theorem bmMAP_cex :
    bmMAP bmGmrfPrior = .error (.attributeError "Sigma") ∧
    bmMAP bmGmrfPrior ≠ .error (.notImplementedError
      (mapErrMsg (modelTypeName bmGmrfPrior.model) (distTypeName bmGmrfPrior.likelihood)
        (distTypeName bmGmrfPrior.prior))) := by
  refine ⟨rfl, ?_⟩
  intro h
  rw [show bmMAP bmGmrfPrior = .error (.attributeError "Sigma") from rfl] at h
  exact PyErr.noConfusion (Except.error.inj h)

/-! ### C1: posterior sampling in the linear Gaussian case -/

/-- C1 (corrected).  For a Gaussian likelihood, a (non-GMRF) Gaussian prior
with vector mean, and a linear model, `sample_posterior(Ns)` with `Ns ≥ 1`
returns the `Ns` samples `x_map + L·ξₛ`, where `x_map` is the closed-form MAP
estimate and `L = np.linalg.cholesky(C)` with `C` the exact Gaussian
posterior covariance `(Aᵀ·Ce⁻¹·A + Cx⁻¹)⁻¹` built from the model matrix `A`,
the likelihood covariance `Ce` and the prior covariance `Cx`.  (For `Ns = 0`
the call instead raises `UnboundLocalError`, see the counterexample.) -/
theorem samplePosterior_mapCholesky_spec {m n : ℕ} (nl : NumLib) (bm : BayesModel m n)
    (g : GaussianCls m n) (gp : GaussianCls n n) (A : Mat m n) (x0 : Vec n)
    (Ns : ℕ) (ξ : Fin Ns → Fin n → ℝ) (L : Matrix (Fin n) (Fin n) ℝ)
    (hl : bm.likelihood = .gaussian g) (hp : bm.prior = .gaussian gp)
    (hm : bm.model = some (.linearModel A)) (hmean : gp.mean = .vec x0)
    (hsys : (A * gp.Sigma * Aᵀ + g.Sigma).det ≠ 0)
    (hCe : g.Sigma.det ≠ 0) (hCx : gp.Sigma.det ≠ 0)
    (hpost : (Aᵀ * (g.Sigma⁻¹ * A) + gp.Sigma⁻¹).det ≠ 0)
    (hchol : nl.npchol n (Aᵀ * (g.Sigma⁻¹ * A) + gp.Sigma⁻¹)⁻¹ = .ok L)
    (hNs : Ns ≠ 0) :
    bmSamplePosterior nl bm Ns ξ = .ok (.samples fun s i =>
      (((x0 + gp.Sigma *ᵥ (Aᵀ *ᵥ ((A * gp.Sigma * Aᵀ + g.Sigma)⁻¹ *ᵥ
        (bm.data - A *ᵥ x0)))) i : ℚ) : ℝ) + (L *ᵥ fun j => ξ s j) i) := by
  obtain ⟨lik, pr, mo, data⟩ := bm
  simp only at hl hp hm ⊢
  subst hl; subst hp; subst hm
  simp only [bmSamplePosterior, bmSampleMapCholesky, bmMAP, bmCheck, distIsInst,
    modelIsLinear, Bool.and_self, Bool.and_true, Bool.true_and, Bool.not_true,
    Bool.false_or, Bool.not_false, Bool.and_false, Bool.false_and, Bool.or_false,
    modelMatrix, distSigma, distMeanVec, hmean, npSolveQ, npInvQ, exceptBindOk,
    if_neg hsys, if_neg hCe, if_neg hCx, ratInv_eq_inv, if_neg hpost, if_true,
    hchol, if_neg hNs]

/-- Witness for `samplePosterior_mapCholesky_spec` at a concrete
one-dimensional model with unit matrices and two samples of zero noise. -/
theorem samplePosterior_mapCholesky_witness :
    ((1 : Mat 1 1) * unitGauss1.Sigma * (1 : Mat 1 1)ᵀ + unitGauss1.Sigma).det ≠ 0 ∧
    unitGauss1.Sigma.det ≠ 0 ∧
    ((1 : Mat 1 1)ᵀ * (unitGauss1.Sigma⁻¹ * 1) + unitGauss1.Sigma⁻¹).det ≠ 0 ∧
    bmSamplePosterior zeroNumLib bmGGL 2 (fun _ _ => 0) = .ok (.samples fun s i =>
      (((0 + unitGauss1.Sigma *ᵥ ((1 : Mat 1 1)ᵀ *ᵥ
        (((1 : Mat 1 1) * unitGauss1.Sigma * (1 : Mat 1 1)ᵀ + unitGauss1.Sigma)⁻¹ *ᵥ
        (bmGGL.data - (1 : Mat 1 1) *ᵥ 0)))) i : ℚ) : ℝ) +
        ((1 : Matrix (Fin 1) (Fin 1) ℝ) *ᵥ fun j => (0 : ℝ)) i) := by
  have h1 : unitGauss1.Sigma.det ≠ 0 := by
    simp [unitGauss1, Matrix.det_fin_one, Matrix.one_apply]
  have h2 : ((1 : Mat 1 1) * unitGauss1.Sigma * (1 : Mat 1 1)ᵀ + unitGauss1.Sigma).det ≠ 0 := by
    simp [unitGauss1, Matrix.det_fin_one, Matrix.add_apply, Matrix.one_apply]
  have h3 : ((1 : Mat 1 1)ᵀ * (unitGauss1.Sigma⁻¹ * 1) + unitGauss1.Sigma⁻¹).det ≠ 0 := by
    simp [unitGauss1, Matrix.det_fin_one, Matrix.add_apply, Matrix.one_apply]
  exact ⟨h2, h1, h3,
    samplePosterior_mapCholesky_spec zeroNumLib bmGGL unitGauss1 unitGauss1 1 0 2
      (fun _ _ => 0) 1 rfl rfl rfl rfl h2 h1 h1 h3 rfl (by norm_num)⟩

/-- Counterexample to C1 as stated: the claim quantifies over every `Ns`, but
at `Ns = 0` the sampling loop body never runs and the subsequent progress
`print` references the loop variable `s`, raising `UnboundLocalError` instead
of returning zero samples. -/
theorem samplePosterior_Ns0_cex :
    bmSamplePosterior zeroNumLib bmGGL 0 (fun _ _ => 0) = .error .unboundLocal := by
  have h1 : unitGauss1.Sigma.det ≠ 0 := by
    simp [unitGauss1, Matrix.det_fin_one, Matrix.one_apply]
  have h2 : ((1 : Mat 1 1) * unitGauss1.Sigma * (1 : Mat 1 1)ᵀ + unitGauss1.Sigma).det ≠ 0 := by
    simp [unitGauss1, Matrix.det_fin_one, Matrix.add_apply, Matrix.one_apply]
  have h3 : ((1 : Mat 1 1)ᵀ * (unitGauss1.Sigma⁻¹ * 1) + unitGauss1.Sigma⁻¹).det ≠ 0 := by
    simp [unitGauss1, Matrix.det_fin_one, Matrix.add_apply, Matrix.one_apply]
  have h4 : ((1 + 1 : Mat 1 1)).det ≠ 0 := by
    simp [Matrix.det_fin_one, Matrix.add_apply, Matrix.one_apply]
  have h5 : ((1 : Mat 1 1)).det ≠ 0 := by simp
  simp only [bmSamplePosterior, bmSampleMapCholesky, bmMAP, bmGGL, bmCheck, distIsInst,
    modelIsLinear, Bool.and_self, Bool.and_true, Bool.true_and, Bool.not_true,
    Bool.false_or, Bool.not_false, Bool.and_false, Bool.false_and, Bool.or_false,
    modelMatrix, distSigma, distMeanVec, unitGauss1, npSolveQ, npInvQ, exceptBindOk,
    ratInv_eq_inv, Matrix.transpose_one, Matrix.mul_one, Matrix.one_mul, inv_one,
    if_neg h4, if_neg h5, if_true, zeroNumLib]

/-! ### C3: dispatch to component-wise Metropolis -/

/-- C3 (corrected).  For a Gaussian likelihood and a Cauchy-difference or
Laplace-difference prior, `sample_posterior(Ns)` dispatches to the
component-wise Metropolis sampler with target
`x ↦ likelihood.logpdf(data, x) + prior.logpdf(x)`, per-coordinate initial
scale `0.05 = 1/20` in every coordinate, initial state `0.5 = 1/2` in every
coordinate, and burn-in `int(0.2*Ns) = ⌊Ns/5⌋` — the floor of 20% of `Ns`,
not exactly 20% of `Ns` (see the counterexample at `Ns = 7`). -/
theorem samplePosterior_cwmh_spec {m n : ℕ} (nl : NumLib) (bm : BayesModel m n)
    (g : GaussianCls m n) (Ns : ℕ) (ξ : Fin Ns → Fin n → ℝ)
    (hl : bm.likelihood = .gaussian g) :
    (∀ c : CauchyDiffCls n, bm.prior = .cauchy c →
      bmSamplePosterior nl bm Ns ξ = .ok (.cwmh
        (fun x => .ok (gaussLogpdf nl g bm.data x + cauchyLogpdf nl c x))
        (fun _ => 1 / 20) (fun _ => 1 / 2) (cwmhBurnIn Ns))) ∧
    (∀ c : LaplaceDiffCls n, bm.prior = .laplace c →
      bmSamplePosterior nl bm Ns ξ = .ok (.cwmh
        (fun x => .ok (gaussLogpdf nl g bm.data x + laplaceLogpdf nl c x))
        (fun _ => 1 / 20) (fun _ => 1 / 2) (cwmhBurnIn Ns))) := by
  obtain ⟨lik, pr, mo, data⟩ := bm
  simp only at hl ⊢
  subst hl
  constructor
  · intro c hp
    subst hp
    rfl
  · intro c hp
    subst hp
    rfl

/-- Witness for `samplePosterior_cwmh_spec` at concrete one-dimensional
models with `Ns = 10` (both the Cauchy and the Laplace branch). -/
theorem samplePosterior_cwmh_witness :
    (bmSamplePosterior zeroNumLib bmCauchy 10 (fun _ _ => 0) = .ok (.cwmh
      (fun x => .ok (gaussLogpdf zeroNumLib unitGauss1 bmCauchy.data x +
        cauchyLogpdf zeroNumLib cauchy1 x))
      (fun _ => 1 / 20) (fun _ => 1 / 2) (cwmhBurnIn 10))) ∧
    (bmSamplePosterior zeroNumLib bmLaplace 10 (fun _ _ => 0) = .ok (.cwmh
      (fun x => .ok (gaussLogpdf zeroNumLib unitGauss1 bmLaplace.data x +
        laplaceLogpdf zeroNumLib laplace1 x))
      (fun _ => 1 / 20) (fun _ => 1 / 2) (cwmhBurnIn 10))) :=
  ⟨(samplePosterior_cwmh_spec zeroNumLib bmCauchy unitGauss1 10 (fun _ _ => 0) rfl).1
      cauchy1 rfl,
    (samplePosterior_cwmh_spec zeroNumLib bmLaplace unitGauss1 10 (fun _ _ => 0) rfl).2
      laplace1 rfl⟩

/-- Counterexample to C3 as stated: at `Ns = 7` the burn-in passed to
`sample_adapt` is `int(0.2*7) = 1`, which is not 20% of 7 (`= 1.4`); the
dispatch otherwise proceeds exactly as claimed. -/
theorem samplePosterior_cwmh_cex :
    bmSamplePosterior zeroNumLib bmCauchy 7 (fun _ _ => 0) = .ok (.cwmh
      (fun x => .ok (gaussLogpdf zeroNumLib unitGauss1 bmCauchy.data x +
        cauchyLogpdf zeroNumLib cauchy1 x))
      (fun _ => 1 / 20) (fun _ => 1 / 2) 1) ∧
    ((cwmhBurnIn 7 : ℚ) ≠ 20 / 100 * 7) := by
  constructor
  · rfl
  · rw [show cwmhBurnIn 7 = 1 from rfl]
    norm_num

/-! ### C8: invalid boundary condition in Cauchy_diff -/

/-- C8 (code bug).  The `if/elif` chain of `Cauchy_diff.__init__` (and of
`Laplace_diff.__init__`) has no `else` branch, so an unrecognized
boundary-condition string leaves the local `Dmat` unassigned and the
constructor dies with `UnboundLocalError` — not with the descriptive
invalid-configuration error the spec requires and that the analogous chain
in `GMRF.__init__` does raise (third conjunct). -/
theorem cauchyInit_invalid_bnd_bug :
    cauchyInit (0 : Vec 2) 1 "central" = .error .unboundLocal ∧
    laplaceInit (0 : Vec 2) 1 "central" = .error .unboundLocal ∧
    gmrfD1 2 "central" = .error
      (.typeError "Unexpected BC type (choose from zero, periodic, neumann or none)") :=
  ⟨rfl, rfl, rfl⟩

/-! ### C6: Cauchy_diff log-density -/

/-- C6 (corrected).  For every supported boundary condition,
`Cauchy_diff.logpdf(x)` equals the sum over the components of `Dx = D(x-loc)`
of `log(scale) - log(Dxᵢ² + scale²)`, minus the **row count of `D`** times
`log(π)` — not `dim` times `log(π)` as claimed: the code multiplies by
`len(Dx)`, which is `dim+1` for `zero`/`periodic`, `dim-1` for `neumann`,
and `dim` only for `backward`/`none` (second conjunct). -/
theorem cauchyLogpdf_spec {n : ℕ} (loc : Vec n) (s : ℚ) (bnd : String)
    (c : CauchyDiffCls n) (x : Vec n) (nl : NumLib)
    (hinit : cauchyInit loc s bnd = .ok c)
    (hbnd : bnd = "zero" ∨ bnd = "periodic" ∨ bnd = "neumann" ∨
      bnd = "backward" ∨ bnd = "none")
    (hlg : nl.lg = Real.log) (hpi : nl.piv = Real.pi) :
    cauchyLogpdf nl c x =
      (∑ i : Fin c.D.1, (Real.log (s : ℝ) -
        Real.log (((c.D.2 *ᵥ (x - loc)) i ^ 2 + s ^ 2 : ℚ) : ℝ)))
        - (c.D.1 : ℝ) * Real.log Real.pi ∧
    c.D.1 = cauchyRowCount bnd n := by
  rcases hbnd with h | h | h | h | h <;> subst h <;>
    · simp [cauchyInit, diffOperator, Except.map] at hinit
      subst hinit
      refine ⟨?_, by simp [cauchyRowCount]⟩
      simp only [cauchyLogpdf, hlg, hpi]
      ring

/-- Witness for `cauchyLogpdf_spec` at the concrete instance `cauchyZero2`
(dimension 2, `zero` boundary) evaluated at `x = 0`. -/
theorem cauchyLogpdf_spec_witness :
    cauchyInit (0 : Vec 2) 1 "zero" = .ok cauchyZero2 ∧
    (cauchyLogpdf realNumLib cauchyZero2 0 =
      (∑ i : Fin cauchyZero2.D.1, (Real.log ((1 : ℚ) : ℝ) -
        Real.log (((cauchyZero2.D.2 *ᵥ ((0 : Vec 2) - 0)) i ^ 2 + 1 ^ 2 : ℚ) : ℝ)))
        - (cauchyZero2.D.1 : ℝ) * Real.log Real.pi ∧
      cauchyZero2.D.1 = cauchyRowCount "zero" 2) :=
  ⟨rfl, cauchyLogpdf_spec (0 : Vec 2) 1 "zero" cauchyZero2 0 realNumLib rfl
    (Or.inl rfl) rfl rfl⟩

/-- Counterexample to C6 as stated: for dimension 2 with `zero` boundary the
operator has 3 rows, so `logpdf(0)` is `-3·log(π)`, while the claimed formula
(with coefficient `dim = 2`) gives `-2·log(π)`; the two differ because
`log(π) ≠ 0`. -/
theorem cauchyLogpdf_cex :
    cauchyInit (0 : Vec 2) 1 "zero" = .ok cauchyZero2 ∧
    cauchyLogpdf realNumLib cauchyZero2 0 ≠
      (∑ i : Fin cauchyZero2.D.1, (Real.log ((1 : ℚ) : ℝ) -
        Real.log (((cauchyZero2.D.2 *ᵥ ((0 : Vec 2) - 0)) i ^ 2 + 1 ^ 2 : ℚ) : ℝ)))
        - (2 : ℝ) * Real.log Real.pi := by
  refine ⟨rfl, ?_⟩
  have hπ : 0 < Real.log Real.pi := by
    have h3 := Real.pi_gt_three
    exact Real.log_pos (by linarith)
  have hL : cauchyLogpdf realNumLib cauchyZero2 0 = -(3 : ℝ) * Real.log Real.pi := by
    simp [cauchyLogpdf, cauchyZero2, realNumLib, Matrix.mulVec_zero]
  have hR : (∑ i : Fin cauchyZero2.D.1, (Real.log ((1 : ℚ) : ℝ) -
      Real.log (((cauchyZero2.D.2 *ᵥ ((0 : Vec 2) - 0)) i ^ 2 + 1 ^ 2 : ℚ) : ℝ)))
        - (2 : ℝ) * Real.log Real.pi = -(2 : ℝ) * Real.log Real.pi := by
    simp [cauchyZero2, Matrix.mulVec_zero]
  rw [hL, hR]
  intro h
  have : Real.log Real.pi = 0 := by linarith
  linarith

/-! ### C7: log-determinant round trip for uncorrelated Gaussians -/

/-- Uniqueness of the Cholesky factor of a positive diagonal matrix: a lower
triangular matrix with positive diagonal whose symmetric square is
`diagonal (d²)` must itself be `diagonal d`. -/
theorem chol_diag_unique {m : ℕ} (d : Fin m → ℝ) (hd : ∀ i, 0 < d i)
    (L : Matrix (Fin m) (Fin m) ℝ) (hlow : ∀ i j : Fin m, i < j → L i j = 0)
    (hpos : ∀ i, 0 < L i i)
    (hfact : L * Lᵀ = Matrix.diagonal fun i => d i ^ 2) :
    ∀ j : Fin m, L j j = d j ∧ ∀ i, i ≠ j → L i j = 0 := by
  suffices H : ∀ jv : ℕ, ∀ j : Fin m, (j : ℕ) = jv →
      (L j j = d j ∧ ∀ i, i ≠ j → L i j = 0) by
    intro j; exact H j j rfl
  intro jv
  induction jv using Nat.strong_induction_on with
  | _ jv ih =>
    intro j hj
    have hrow : ∀ t, t ≠ j → L j t = 0 := by
      intro t ht
      rcases lt_or_gt_of_ne ht with hlt | hgt
      · exact (ih (t : ℕ) (hj ▸ hlt) t rfl).2 j (Ne.symm ht)
      · exact hlow j t hgt
    have hdiag_sq : L j j ^ 2 = d j ^ 2 := by
      have h1 := congrFun (congrFun hfact j) j
      simp only [Matrix.mul_apply, Matrix.transpose_apply,
        Matrix.diagonal_apply_eq] at h1
      rw [Finset.sum_eq_single j] at h1
      · rw [← h1]; ring
      · intro t _ ht; rw [hrow t ht]; ring
      · intro ht; exact absurd (Finset.mem_univ j) ht
    have hLjj : L j j = d j := by
      have h2 := hpos j; have h3 := hd j
      nlinarith [hdiag_sq]
    refine ⟨hLjj, ?_⟩
    intro i hij
    rcases lt_or_gt_of_ne hij with hlt | hgt
    · exact hlow i j hlt
    · have h1 := congrFun (congrFun hfact i) j
      simp only [Matrix.mul_apply, Matrix.transpose_apply] at h1
      rw [Matrix.diagonal_apply_ne _ hij, Finset.sum_eq_single j] at h1
      · rcases mul_eq_zero.mp h1 with h | h
        · exact h
        · exact absurd h (ne_of_gt (hpos j))
      · intro t _ ht; rw [hrow t ht]; ring
      · intro ht; exact absurd (Finset.mem_univ j) ht

/-- C7 (confirmed).  For a Gaussian constructed with a diagonal correlation
matrix — a correlation matrix has unit diagonal, so the diagonal/uncorrelated
case is the identity — and positive per-component standard deviations, the
`logdet` attribute computed by the diagonal-product shortcut `sum(2*log(std))`
equals `2 * sum(log(diag(L)))` for the (unique) Cholesky factor `L` of the
covariance `Σ = diag(std)·corrmat·diag(std)`: any real lower-triangular `L`
with positive diagonal and `L·Lᵀ = Σ` works. -/
theorem gaussianLogdet_roundtrip {m p : ℕ} (nl : NumLib) (mean : GaussMean m p)
    (std : Vec m) (R : Mat m m) (g : GaussianCls m p)
    (L : Matrix (Fin m) (Fin m) ℝ)
    (hdiagR : ∀ i j : Fin m, i ≠ j → R i j = 0)
    (hunit : ∀ i, R i i = 1)
    (hstd : ∀ i, 0 < std i)
    (hinit : gaussianInit nl mean std R = .ok g)
    (hlg : nl.lg = Real.log)
    (hlow : ∀ i j : Fin m, i < j → L i j = 0)
    (hpos : ∀ i, 0 < L i i)
    (hfact : L * Lᵀ = g.Sigma.map Rat.cast) :
    g.logdet = 2 * ∑ i, Real.log (L i i) := by
  have hR : R = 1 := by
    ext i j
    by_cases h : i = j
    · subst h; rw [hunit, Matrix.one_apply_eq]
    · rw [hdiagR i j h, Matrix.one_apply_ne h]
  subst hR
  have hdiag : isDiag (1 : Mat m m) = true := by
    simp only [isDiag, decide_eq_true_eq]
    intro i j h
    exact Matrix.one_apply_ne h
  rw [gaussianInit, if_pos hdiag] at hinit
  cases hchol : nl.npchol m (Matrix.diagonal std * ((1 : Mat m m) * Matrix.diagonal std)) with
  | error e => rw [hchol] at hinit; simp [Except.map] at hinit
  | ok L0 =>
    rw [hchol] at hinit
    simp only [Except.map, Except.ok.injEq] at hinit
    subst hinit
    have hSig : Matrix.diagonal std * ((1 : Mat m m) * Matrix.diagonal std) =
        Matrix.diagonal fun i => std i * std i := by
      rw [one_mul, Matrix.diagonal_mul_diagonal]
    have hfact' : L * Lᵀ = Matrix.diagonal fun i => ((std i : ℝ)) ^ 2 := by
      rw [hfact]
      show (Matrix.diagonal std * ((1 : Mat m m) * Matrix.diagonal std)).map _ = _
      rw [hSig, Matrix.diagonal_map (by simp)]
      congr 1
      funext i
      push_cast
      ring_nf
    have hL := chol_diag_unique (fun i => (std i : ℝ))
      (fun i => by
        have h0 : ((0 : ℚ) : ℝ) < ((std i : ℚ) : ℝ) := Rat.cast_lt.mpr (hstd i)
        simpa using h0) L hlow hpos hfact'
    show (∑ i, 2 * nl.lg (std i)) = 2 * ∑ i, Real.log (L i i)
    rw [hlg, Finset.mul_sum]
    refine Finset.sum_congr rfl fun i _ => ?_
    rw [(hL i).1]

/-- Witness for `gaussianLogdet_roundtrip`: the concrete one-dimensional
Gaussian `c7g` with standard deviation 2 and identity correlation matrix,
whose Cholesky factor is the 1×1 matrix `[[2]]`. -/
theorem gaussianLogdet_roundtrip_witness :
    gaussianInit realNumLib (.vec 0) (fun _ => (2 : ℚ)) (1 : Mat 1 1) = .ok c7g ∧
    c7g.logdet = 2 * ∑ i : Fin 1, Real.log ((!![(2 : ℝ)]) i i) := by
  have hinit : gaussianInit realNumLib (.vec 0) (fun _ => (2 : ℚ)) (1 : Mat 1 1) =
      .ok c7g := rfl
  refine ⟨hinit, ?_⟩
  have hSig : c7g.Sigma =
      Matrix.diagonal (fun _ => (2 : ℚ)) * (1 * Matrix.diagonal fun _ => (2 : ℚ)) := rfl
  have hfact : (!![(2 : ℝ)]) * (!![(2 : ℝ)])ᵀ = c7g.Sigma.map Rat.cast := by
    rw [hSig]
    ext i j
    fin_cases i; fin_cases j
    norm_num [Matrix.mul_apply, Matrix.diagonal, Matrix.map_apply]
  refine gaussianLogdet_roundtrip realNumLib (.vec 0) (fun _ => 2) (1 : Mat 1 1)
    c7g (!![(2 : ℝ)]) ?_ ?_ ?_ hinit rfl ?_ ?_ hfact
  · intro i j h
    exact absurd (Subsingleton.elim i j) h
  · intro i
    exact Matrix.one_apply_eq i
  · intro i
    norm_num
  · intro i j hij
    exfalso
    have hi := i.isLt; have hj := j.isLt
    rw [Fin.lt_def] at hij
    omega
  · intro i
    fin_cases i
    norm_num

/-! ### C4 and C10: the GMRF log-determinant threshold and periodic sampling -/

/-- Normal form of `gmrfFinish` for the `periodic`/`neumann` boundary
conditions: the attribute record with the `dim > 5000` branch made explicit. -/
theorem gmrfFinish_pn (nl : NumLib) {n : ℕ} (mean : Vec n) (prec : ℚ) (Np : ℕ)
    (BCs : String) (Dm : (r : ℕ) × Matrix (Fin r) (Fin n) ℚ) (L : Mat n n)
    (hBC : BCs = "periodic" ∨ BCs = "neumann") :
    gmrfFinish nl mean prec Np BCs Dm L =
      if 5000 < n then
        ⟨mean, prec, Np, BCs, Dm, L, some (n - 1),
          some (nl.spchol n (L + sqrtEps • 1)), none,
          some (2 * ∑ i, nl.lg ((nl.spchol n (L + sqrtEps • 1)) i i))⟩
      else
        ⟨mean, prec, Np, BCs, Dm, L, some (n - 1),
          some (nl.spchol n (L + sqrtEps • 1)),
          some ⟨n - 1, nl.eigshLM n L (n - 1)⟩,
          some (∑ i, nl.lg (nl.eigshLM n L (n - 1) i))⟩ := by
  rcases hBC with h | h <;> subst h <;>
    rw [gmrfFinish, if_neg (by decide), if_pos (by decide)]

/-- Normal form of `gmrfFinish` for the `none` boundary condition: the
`rank`, `chol`, `L_eigval` and `logdet` attributes are never assigned. -/
theorem gmrfFinish_none (nl : NumLib) {n : ℕ} (mean : Vec n) (prec : ℚ) (Np : ℕ)
    (Dm : (r : ℕ) × Matrix (Fin r) (Fin n) ℚ) (L : Mat n n) :
    gmrfFinish nl mean prec Np "none" Dm L =
      ⟨mean, prec, Np, "none", Dm, L, none, none, none, none⟩ := by
  rw [gmrfFinish, if_neg (by decide), if_neg (by decide)]

/-- Reduction of `GMRF_init1` on the `periodic` boundary condition. -/
theorem GMRF_init1_periodic (nl : NumLib) {N : ℕ} (mean : Vec N) (prec : ℚ) :
    GMRF_init1 nl mean prec "periodic" = .ok (gmrfFinish nl mean prec N "periodic"
      ⟨N + 1, diffPeriodic N⟩ ((diffPeriodic N)ᵀ * diffPeriodic N)) := rfl

/-- Reduction of `GMRF_init1` on the `neumann` boundary condition. -/
theorem GMRF_init1_neumann (nl : NumLib) {N : ℕ} (mean : Vec N) (prec : ℚ) :
    GMRF_init1 nl mean prec "neumann" = .ok (gmrfFinish nl mean prec N "neumann"
      ⟨N, gmrfNeumannD N⟩ ((gmrfNeumannD N)ᵀ * gmrfNeumannD N)) := rfl

/-- C4 (corrected).  For a GMRF with boundary condition `periodic` or
`neumann`, the stored log-determinant is the partial-eigendecomposition
value `Σ log(eigsh(L, rank, LM))` over the rank-many largest eigenvalues
when the dimension is **at most** 5000 — not "below 5000" as claimed, since
the code tests `dim > 5000`, so dimension exactly 5000 still takes the exact
eigenvalue path — and is the approximation `2·Σ log(diag(chol(L + √eps·I)))`
from the regularized sparse Cholesky factor when the dimension exceeds 5000.
Both spatial dimensions (`dom = 1` with `dim = N`, `dom = 2` with
`dim = N²`) are covered; the stored rank is `dim - 1` in each case. -/
theorem gmrfLogdet_threshold_spec (nl : NumLib) (BCs : String)
    (hBC : BCs = "periodic" ∨ BCs = "neumann") :
    (∀ (N : ℕ) (mean : Vec N) (prec : ℚ) (g : GMRFAttrs N),
      GMRF_init1 nl mean prec BCs = .ok g →
      g.rank = some (N - 1) ∧
      g.logdet = some (if 5000 < N then
          2 * ∑ i, nl.lg ((nl.spchol N (g.Lmat + sqrtEps • 1)) i i)
        else ∑ i : Fin (N - 1), nl.lg (nl.eigshLM N g.Lmat (N - 1) i))) ∧
    (∀ (N : ℕ) (mean : Vec (N * N)) (prec : ℚ) (g : GMRFAttrs (N * N)),
      GMRF_init2 nl mean prec BCs = .ok g →
      g.rank = some (N * N - 1) ∧
      g.logdet = some (if 5000 < N * N then
          2 * ∑ i, nl.lg ((nl.spchol (N * N) (g.Lmat + sqrtEps • 1)) i i)
        else ∑ i : Fin (N * N - 1), nl.lg (nl.eigshLM (N * N) g.Lmat (N * N - 1) i))) := by
  constructor
  · intro N mean prec g hg
    rcases hBC with h | h <;> subst h
    · rw [GMRF_init1_periodic, Except.ok.injEq] at hg
      subst hg
      rw [gmrfFinish_pn _ _ _ _ _ _ _ (Or.inl rfl)]
      split_ifs with h5 <;> simp [h5]
    · rw [GMRF_init1_neumann, Except.ok.injEq] at hg
      subst hg
      rw [gmrfFinish_pn _ _ _ _ _ _ _ (Or.inr rfl)]
      split_ifs with h5 <;> simp [h5]
  · intro N mean prec g hg
    rcases hBC with h | h <;> subst h <;>
    · simp [GMRF_init2, gmrfD1, Except.map] at hg
      subst hg
      rw [gmrfFinish_pn _ _ _ _ _ _ _ (by simp)]
      split_ifs with h5 <;> simp [h5]

/-- Witness for `gmrfLogdet_threshold_spec`: the concrete periodic GMRF of
dimension 2 constructed by `GMRF_init1`. -/
theorem gmrfLogdet_threshold_witness :
    GMRF_init1 zeroNumLib (0 : Vec 2) 1 "periodic" = .ok c4wg ∧
    (c4wg.rank = some (2 - 1) ∧
      c4wg.logdet = some (if 5000 < 2 then
          2 * ∑ i, zeroNumLib.lg ((zeroNumLib.spchol 2 (c4wg.Lmat + sqrtEps • 1)) i i)
        else ∑ i : Fin (2 - 1), zeroNumLib.lg (zeroNumLib.eigshLM 2 c4wg.Lmat (2 - 1) i))) := by
  have h : GMRF_init1 zeroNumLib (0 : Vec 2) 1 "periodic" = .ok c4wg := rfl
  exact ⟨h, (gmrfLogdet_threshold_spec zeroNumLib "periodic" (Or.inl rfl)).1 2 0 1 c4wg h⟩

/-- Counterexample to C4 as stated: at dimension exactly 5000 (N = 5000,
dom = 1, periodic) the code takes the exact eigenvalue path (`dim > 5000` is
false), while the claim ("below the threshold 5000, otherwise approximated")
demands the Cholesky approximation.  With `np.log` instantiated as the
constant-one function the stored value is 4999 (one log per eigenvalue,
rank = 4999) whereas the claimed formula gives 10000. -/
theorem gmrfLogdet_threshold_cex :
    GMRF_init1 oneLogNumLib (0 : Vec 5000) 1 "periodic" = .ok c4cg ∧
    c4cg.logdet = some ((4999 : ℕ) : ℝ) ∧
    2 * (∑ i : Fin 5000, oneLogNumLib.lg
      ((oneLogNumLib.spchol 5000 (c4cg.Lmat + sqrtEps • 1)) i i)) = ((10000 : ℕ) : ℝ) ∧
    c4cg.logdet ≠ some (2 * ∑ i : Fin 5000, oneLogNumLib.lg
      ((oneLogNumLib.spchol 5000 (c4cg.Lmat + sqrtEps • 1)) i i)) := by
  have hc : c4cg = gmrfFinish oneLogNumLib (0 : Vec 5000) 1 5000 "periodic"
      ⟨5001, diffPeriodic 5000⟩ ((diffPeriodic 5000)ᵀ * diffPeriodic 5000) := rfl
  have hld : c4cg.logdet = some ((4999 : ℕ) : ℝ) := by
    rw [hc, gmrfFinish_pn _ _ _ _ _ _ _ (Or.inl rfl), if_neg (by norm_num)]
    show some (∑ _i : Fin (5000 - 1), oneLogNumLib.lg _) = _
    simp only [oneLogNumLib]
    rw [Finset.sum_const, Finset.card_univ, Fintype.card_fin, nsmul_eq_mul]
    norm_num
  have hch : 2 * (∑ i : Fin 5000, oneLogNumLib.lg
      ((oneLogNumLib.spchol 5000 (c4cg.Lmat + sqrtEps • 1)) i i)) = ((10000 : ℕ) : ℝ) := by
    simp only [oneLogNumLib]
    rw [Finset.sum_const, Finset.card_univ, Fintype.card_fin, nsmul_eq_mul]
    norm_num
  refine ⟨rfl, hld, hch, ?_⟩
  rw [hld, hch]
  intro h
  rw [Option.some_inj] at h
  norm_num at h

/-- The `periodic` branch of `GMRF.sample` dies reading the absent
`L_eigval` attribute. -/
theorem gmrfSample_periodic_attrErr (nl : NumLib) {n : ℕ} (g : GMRFAttrs n)
    (hBC : g.BCs = "periodic") (hev : g.L_eigval = none) (Ns : ℕ)
    (ξr ξi : Fin Ns → Fin n → ℝ) (ξd : Fin Ns → Fin g.Dmat.1 → ℝ) :
    gmrfSample nl g Ns ξr ξi ξd = .error (.attributeError "L_eigval") := by
  simp [gmrfSample, hBC, hev]

/-- C10 (confirmed).  A periodic GMRF of dimension above 5000 stores no
`L_eigval` (the partial eigendecomposition is only run when `dim ≤ 5000`),
and `sample(Ns)` then fails with `AttributeError` on `L_eigval` for every
`Ns` and every noise draw; conversely a successful periodic `sample` forces
the dimension to be at most 5000.  Both spatial dimensions are covered. -/
theorem gmrfSamplePeriodic_dim_spec (nl : NumLib) :
    (∀ (N : ℕ) (mean : Vec N) (prec : ℚ) (g : GMRFAttrs N),
      GMRF_init1 nl mean prec "periodic" = .ok g →
      (5000 < N → ∀ (Ns : ℕ) (ξr ξi : Fin Ns → Fin N → ℝ)
        (ξd : Fin Ns → Fin g.Dmat.1 → ℝ),
        gmrfSample nl g Ns ξr ξi ξd = .error (.attributeError "L_eigval")) ∧
      (∀ (Ns : ℕ) (ξr ξi : Fin Ns → Fin N → ℝ) (ξd : Fin Ns → Fin g.Dmat.1 → ℝ)
        (r : Fin Ns → Fin N → ℝ),
        gmrfSample nl g Ns ξr ξi ξd = .ok r → N ≤ 5000)) ∧
    (∀ (N : ℕ) (mean : Vec (N * N)) (prec : ℚ) (g : GMRFAttrs (N * N)),
      GMRF_init2 nl mean prec "periodic" = .ok g →
      (5000 < N * N → ∀ (Ns : ℕ) (ξr ξi : Fin Ns → Fin (N * N) → ℝ)
        (ξd : Fin Ns → Fin g.Dmat.1 → ℝ),
        gmrfSample nl g Ns ξr ξi ξd = .error (.attributeError "L_eigval")) ∧
      (∀ (Ns : ℕ) (ξr ξi : Fin Ns → Fin (N * N) → ℝ) (ξd : Fin Ns → Fin g.Dmat.1 → ℝ)
        (r : Fin Ns → Fin (N * N) → ℝ),
        gmrfSample nl g Ns ξr ξi ξd = .ok r → N * N ≤ 5000)) := by
  constructor
  · intro N mean prec g hg
    rw [GMRF_init1_periodic, Except.ok.injEq] at hg
    have hBC : g.BCs = "periodic" := by
      rw [← hg, gmrfFinish_pn _ _ _ _ _ _ _ (Or.inl rfl)]
      split_ifs <;> rfl
    have hev : 5000 < N → g.L_eigval = none := by
      intro h5
      rw [← hg, gmrfFinish_pn _ _ _ _ _ _ _ (Or.inl rfl), if_pos h5]
    refine ⟨fun h5 Ns ξr ξi ξd => gmrfSample_periodic_attrErr nl g hBC (hev h5) Ns ξr ξi ξd, ?_⟩
    intro Ns ξr ξi ξd r hok
    by_contra hN
    rw [not_le] at hN
    rw [gmrfSample_periodic_attrErr nl g hBC (hev hN) Ns ξr ξi ξd] at hok
    exact Except.noConfusion hok
  · intro N mean prec g hg
    simp only [GMRF_init2] at hg
    rw [show gmrfD1 N "periodic" = .ok ⟨N + 1, diffPeriodic N⟩ from rfl] at hg
    simp only [Except.map, Except.ok.injEq] at hg
    have hBC : g.BCs = "periodic" := by
      rw [← hg, gmrfFinish_pn _ _ _ _ _ _ _ (Or.inl rfl)]
      split_ifs <;> rfl
    have hev : 5000 < N * N → g.L_eigval = none := by
      intro h5
      rw [← hg, gmrfFinish_pn _ _ _ _ _ _ _ (Or.inl rfl), if_pos h5]
    refine ⟨fun h5 Ns ξr ξi ξd => gmrfSample_periodic_attrErr nl g hBC (hev h5) Ns ξr ξi ξd, ?_⟩
    intro Ns ξr ξi ξd r hok
    by_contra hN
    rw [not_le] at hN
    rw [gmrfSample_periodic_attrErr nl g hBC (hev hN) Ns ξr ξi ξd] at hok
    exact Except.noConfusion hok

/-- Witness for `gmrfSamplePeriodic_dim_spec`: the concrete periodic GMRF of
dimension 5001; `sample(3)` raises `AttributeError('L_eigval')`. -/
theorem gmrfSamplePeriodic_dim_witness :
    GMRF_init1 zeroNumLib (0 : Vec 5001) 1 "periodic" = .ok c10g ∧
    (5000 : ℕ) < 5001 ∧
    gmrfSample zeroNumLib c10g 3 (fun _ _ => 0) (fun _ _ => 0) (fun _ _ => 0) =
      .error (.attributeError "L_eigval") := by
  have h : GMRF_init1 zeroNumLib (0 : Vec 5001) 1 "periodic" = .ok c10g := rfl
  exact ⟨h, by norm_num,
    ((gmrfSamplePeriodic_dim_spec zeroNumLib).1 5001 0 1 c10g h).1 (by norm_num) 3 _ _ _⟩

/-! ### C9: the `none` boundary condition -/

/-- C9 (corrected).  Constructing a GMRF with boundary condition `none`
succeeds; the structure matrix is the identity for `dom = 1` but **twice**
the identity for `dom = 2` (the claim's parenthetical is wrong there, since
`L = kron(I,I)ᵀ·kron(I,I) + kron(I,I)ᵀ·kron(I,I) = 2·I`); the `rank`,
`chol`, `L_eigval` and `logdet` attributes are never assigned, so `logpdf`
and `pdf` fail with `AttributeError` (on `rank`, read first), while `sample`
alone raises the descriptive unsupported-boundary-condition `TypeError`. -/
theorem gmrfNone_spec (nl : NumLib) :
    (∀ (N : ℕ) (mean : Vec N) (prec : ℚ), ∃ g : GMRFAttrs N,
      GMRF_init1 nl mean prec "none" = .ok g ∧ g.Lmat = 1 ∧
      g.rank = none ∧ g.chol = none ∧ g.L_eigval = none ∧ g.logdet = none ∧
      (∀ x, gmrfLogpdf nl g x = .error (.attributeError "rank")) ∧
      (∀ x, gmrfPdf nl g x = .error (.attributeError "rank")) ∧
      (∀ (Ns : ℕ) (ξr ξi : Fin Ns → Fin N → ℝ) (ξd : Fin Ns → Fin g.Dmat.1 → ℝ),
        gmrfSample nl g Ns ξr ξi ξd = .error
          (.typeError "Unexpected BC type (choose from zero, periodic, neumann or none)"))) ∧
    (∀ (N : ℕ) (mean : Vec (N * N)) (prec : ℚ), ∃ g : GMRFAttrs (N * N),
      GMRF_init2 nl mean prec "none" = .ok g ∧ g.Lmat = (2 : ℚ) • 1 ∧
      g.rank = none ∧ g.chol = none ∧ g.L_eigval = none ∧ g.logdet = none ∧
      (∀ x, gmrfLogpdf nl g x = .error (.attributeError "rank")) ∧
      (∀ x, gmrfPdf nl g x = .error (.attributeError "rank")) ∧
      (∀ (Ns : ℕ) (ξr ξi : Fin Ns → Fin (N * N) → ℝ) (ξd : Fin Ns → Fin g.Dmat.1 → ℝ),
        gmrfSample nl g Ns ξr ξi ξd = .error
          (.typeError "Unexpected BC type (choose from zero, periodic, neumann or none)"))) := by
  constructor
  · intro N mean prec
    refine ⟨gmrfFinish nl mean prec N "none" ⟨N, 1⟩ ((1 : Mat N N)ᵀ * 1), rfl, ?_, ?_, ?_, ?_, ?_,
      ?_, ?_, ?_⟩ <;>
      rw [gmrfFinish_none]
    · show (1 : Mat N N)ᵀ * 1 = 1
      rw [Matrix.transpose_one, Matrix.one_mul]
    · intro x; rfl
    · intro x; rfl
    · intro Ns ξr ξi ξd
      rfl
  · intro N mean prec
    refine ⟨gmrfFinish nl mean prec N "none"
      ⟨N * N + N * N, Matrix.reindex
        (((rowMajor N N).sumCongr (rowMajor N N)).trans finSumFinEquiv) (rowMajor N N)
        (vstack (Matrix.kroneckerMap (· * ·) (1 : Mat N N) (1 : Mat N N)) (Matrix.kroneckerMap (· * ·) (1 : Mat N N) (1 : Mat N N)))⟩
      (Matrix.reindex (rowMajor N N) (rowMajor N N)
        ((Matrix.kroneckerMap (· * ·) (1 : Mat N N) (1 : Mat N N))ᵀ * Matrix.kroneckerMap (· * ·) (1 : Mat N N) (1 : Mat N N) + (Matrix.kroneckerMap (· * ·) (1 : Mat N N) (1 : Mat N N))ᵀ * Matrix.kroneckerMap (· * ·) (1 : Mat N N) (1 : Mat N N))), rfl, ?_, ?_, ?_, ?_, ?_, ?_, ?_, ?_⟩ <;>
      rw [gmrfFinish_none]
    · show Matrix.reindex (rowMajor N N) (rowMajor N N)
        ((Matrix.kroneckerMap (· * ·) (1 : Mat N N) (1 : Mat N N))ᵀ *
          Matrix.kroneckerMap (· * ·) (1 : Mat N N) (1 : Mat N N) +
         (Matrix.kroneckerMap (· * ·) (1 : Mat N N) (1 : Mat N N))ᵀ *
          Matrix.kroneckerMap (· * ·) (1 : Mat N N) (1 : Mat N N)) = (2 : ℚ) • 1
      rw [show Matrix.kroneckerMap (· * ·) (1 : Mat N N) (1 : Mat N N) =
        (1 : Matrix (Fin N × Fin N) (Fin N × Fin N) ℚ) from Matrix.one_kronecker_one]
      rw [Matrix.transpose_one, Matrix.one_mul, Matrix.reindex_apply]
      ext i j
      by_cases h : i = j <;>
        · simp [Matrix.submatrix_apply, Matrix.add_apply, Matrix.one_apply,
            Matrix.smul_apply, EmbeddingLike.apply_eq_iff_eq, h]
          try norm_num
    · intro x; rfl
    · intro x; rfl
    · intro Ns ξr ξi ξd
      rfl

/-- Counterexample to C9 as stated: for `dom = 2` (partition size 2) the
structure matrix built for the `none` boundary condition is `2·I`, not the
identity: its `(0,0)` entry is 2. -/
theorem gmrfNone_Lmat_cex :
    GMRF_init2 zeroNumLib (0 : Vec (2 * 2)) 1 "none" = .ok c9g ∧
    c9g.Lmat ≠ 1 := by
  refine ⟨rfl, ?_⟩
  have hL : c9g.Lmat = (2 : ℚ) • 1 := by
    show Matrix.reindex (rowMajor 2 2) (rowMajor 2 2)
        ((Matrix.kroneckerMap (· * ·) (1 : Mat 2 2) (1 : Mat 2 2))ᵀ *
          Matrix.kroneckerMap (· * ·) (1 : Mat 2 2) (1 : Mat 2 2) +
         (Matrix.kroneckerMap (· * ·) (1 : Mat 2 2) (1 : Mat 2 2))ᵀ *
          Matrix.kroneckerMap (· * ·) (1 : Mat 2 2) (1 : Mat 2 2)) = (2 : ℚ) • 1
    rw [show Matrix.kroneckerMap (· * ·) (1 : Mat 2 2) (1 : Mat 2 2) =
      (1 : Matrix (Fin 2 × Fin 2) (Fin 2 × Fin 2) ℚ) from Matrix.one_kronecker_one]
    rw [Matrix.transpose_one, Matrix.one_mul, Matrix.reindex_apply]
    ext i j
    by_cases h : i = j <;>
      · simp [Matrix.submatrix_apply, Matrix.add_apply, Matrix.one_apply,
          Matrix.smul_apply, EmbeddingLike.apply_eq_iff_eq, h]
        try norm_num
  intro h
  rw [hL] at h
  have h00 := congrFun (congrFun h 0) 0
  simp [Matrix.smul_apply, Matrix.one_apply] at h00

/-! ### C5: rank and positive semi-definiteness of the GMRF structure matrix

Generic linear-algebra helpers, then the kernels of the three 1D difference
operators, then the two-dimensional Kronecker constructions. -/

/-- A finite sum whose summand vanishes outside two distinct points. -/
theorem sum_two_support {ι : Type} [Fintype ι] [DecidableEq ι] (f : ι → ℚ) (a b : ι)
    (hab : a ≠ b) (h0 : ∀ c, c ≠ a → c ≠ b → f c = 0) :
    (∑ c, f c) = f a + f b := by
  have h1 : ∑ c ∈ ({a, b} : Finset ι), f c = ∑ c, f c := by
    refine Finset.sum_subset (Finset.subset_univ _) ?_
    intro x _ hx
    simp only [Finset.mem_insert, Finset.mem_singleton] at hx
    push_neg at hx
    exact h0 x hx.1 hx.2
  rw [← h1, Finset.sum_pair hab]

/-- A finite sum whose summand vanishes outside one point. -/
theorem sum_one_support {ι : Type} [Fintype ι] [DecidableEq ι] (f : ι → ℚ) (a : ι)
    (h0 : ∀ c, c ≠ a → f c = 0) :
    (∑ c, f c) = f a :=
  Finset.sum_eq_single a (fun c _ hc => h0 c hc) (fun h => absurd (Finset.mem_univ a) h)

/-- Rank-nullity for the linear map of a rational matrix. -/
theorem matrixRank_add_nullity {κ ι : Type} [Fintype κ] [Fintype ι] [DecidableEq ι]
    (A : Matrix κ ι ℚ) :
    A.rank + Module.finrank ℚ (LinearMap.ker A.mulVecLin) = Fintype.card ι := by
  have h := LinearMap.finrank_range_add_finrank_ker A.mulVecLin
  rw [Module.finrank_fintype_fun_eq_card] at h
  exact h

/-- A matrix with trivial kernel has full column rank. -/
theorem rank_of_ker_bot {κ ι : Type} [Fintype κ] [Fintype ι] [DecidableEq ι]
    (A : Matrix κ ι ℚ) (h : LinearMap.ker A.mulVecLin = ⊥) :
    A.rank = Fintype.card ι := by
  have h2 := matrixRank_add_nullity A
  rw [h, finrank_bot] at h2
  omega

/-- A matrix whose kernel is spanned by the all-ones vector has corank one. -/
theorem rank_of_ker_span_ones {κ ι : Type} [Fintype κ] [Fintype ι] [DecidableEq ι]
    [Nonempty ι] (A : Matrix κ ι ℚ)
    (h : LinearMap.ker A.mulVecLin = Submodule.span ℚ {(fun _ => 1 : ι → ℚ)}) :
    A.rank = Fintype.card ι - 1 := by
  have h2 := matrixRank_add_nullity A
  have hone : (fun _ => (1 : ℚ) : ι → ℚ) ≠ 0 := by
    intro h0
    have := congrFun h0 (Classical.arbitrary ι)
    norm_num at this
  rw [h, finrank_span_singleton hone] at h2
  omega

/-- A constant vector over a nonempty finite index type lies in, and spans,
the line of the all-ones vector. -/
theorem const_iff_mem_span_ones {ι : Type} [Fintype ι] [Nonempty ι] (x : ι → ℚ) :
    (∀ i j, x i = x j) ↔ x ∈ Submodule.span ℚ {(fun _ => 1 : ι → ℚ)} := by
  constructor
  · intro hx
    rw [Submodule.mem_span_singleton]
    refine ⟨x (Classical.arbitrary ι), ?_⟩
    funext j
    simp [hx (Classical.arbitrary ι) j]
  · intro hx i j
    rw [Submodule.mem_span_singleton] at hx
    obtain ⟨c, rfl⟩ := hx
    simp

/-- Row 0 of the `zero`-boundary difference matrix evaluates to `x₀`. -/
theorem diffZero_row_zero {N : ℕ} (hN : 0 < N) (x : Vec N) :
    (diffZero N *ᵥ x) ⟨0, by omega⟩ = x ⟨0, hN⟩ := by
  simp only [Matrix.mulVec, Matrix.dotProduct, diffZero, Matrix.of_apply]
  rw [sum_one_support _ ⟨0, hN⟩]
  · norm_num
  · intro c hc
    have hcv : (c : ℕ) ≠ 0 := fun h => hc (Fin.ext h)
    rw [if_neg (by omega), if_neg (by omega), zero_mul]

/-- Row `t+1` of the `zero`-boundary difference matrix is `x_{t+1} - x_t`. -/
theorem diffZero_row_succ {N : ℕ} (t : ℕ) (ht : t + 1 < N) (x : Vec N) :
    (diffZero N *ᵥ x) ⟨t + 1, by omega⟩ = x ⟨t + 1, ht⟩ - x ⟨t, by omega⟩ := by
  simp only [Matrix.mulVec, Matrix.dotProduct, diffZero, Matrix.of_apply]
  rw [sum_two_support _ ⟨t + 1, ht⟩ ⟨t, by omega⟩ (by simp [Fin.ext_iff])]
  · norm_num
    ring
  · intro c hc1 hc2
    have hcv1 : (c : ℕ) ≠ t + 1 := fun h => hc1 (Fin.ext h)
    have hcv2 : (c : ℕ) ≠ t := fun h => hc2 (Fin.ext h)
    rw [if_neg (by omega), if_neg (by omega), zero_mul]

/-- The `zero`-boundary difference matrix has trivial kernel. -/
theorem diffZero_ker {N : ℕ} (x : Vec N) (h : diffZero N *ᵥ x = 0) : x = 0 := by
  have key : ∀ t (ht : t < N), x ⟨t, ht⟩ = 0 := by
    intro t
    induction t with
    | zero =>
      intro ht
      have h0 := congrFun h ⟨0, by omega⟩
      rw [diffZero_row_zero ht] at h0
      exact h0
    | succ s ih =>
      intro ht
      have h0 := congrFun h ⟨s + 1, by omega⟩
      rw [diffZero_row_succ s ht] at h0
      have hs := ih (by omega)
      simp only [Pi.zero_apply] at h0
      rw [hs] at h0
      linarith [h0]
  funext j
  have := key j.1 j.2
  simpa using this

/-- Interior rows of the `periodic` difference matrix coincide with those of
the `zero`-boundary one. -/
theorem diffPeriodic_row_eq {N : ℕ} (i : Fin (N + 1)) (h1 : (i : ℕ) ≠ 0)
    (h2 : (i : ℕ) ≠ N) (x : Vec N) :
    (diffPeriodic N *ᵥ x) i = (diffZero N *ᵥ x) i := by
  simp only [Matrix.mulVec, Matrix.dotProduct, diffPeriodic, Matrix.of_apply]
  refine Finset.sum_congr rfl fun j _ => ?_
  rw [if_neg (by omega), if_neg (by omega)]

/-- Row 0 of the `periodic` difference matrix is `x₀ - x_{N-1}`. -/
theorem diffPeriodic_row_zero {N : ℕ} (hN : 2 ≤ N) (x : Vec N) (i : Fin (N + 1))
    (hi : (i : ℕ) = 0) (a b : Fin N) (ha : (a : ℕ) = 0) (hb : (b : ℕ) = N - 1) :
    (diffPeriodic N *ᵥ x) i = x a - x b := by
  simp only [Matrix.mulVec, Matrix.dotProduct, diffPeriodic, diffZero, Matrix.of_apply]
  rw [sum_two_support _ a b (by simp only [ne_eq, Fin.ext_iff]; omega)]
  · rw [if_neg (by omega), if_neg (by omega), if_pos (by omega),
      if_neg (by omega), if_pos (by omega)]
    ring
  · intro c hc1 hc2
    have hcv1 : (c : ℕ) ≠ (a : ℕ) := fun h => hc1 (Fin.ext h)
    have hcv2 : (c : ℕ) ≠ (b : ℕ) := fun h => hc2 (Fin.ext h)
    rw [if_neg (by omega), if_neg (by omega), if_neg (by omega), if_neg (by omega),
      zero_mul]

/-- Row `N` of the `periodic` difference matrix is also `x₀ - x_{N-1}`. -/
theorem diffPeriodic_row_last {N : ℕ} (hN : 2 ≤ N) (x : Vec N) (i : Fin (N + 1))
    (hi : (i : ℕ) = N) (a b : Fin N) (ha : (a : ℕ) = 0) (hb : (b : ℕ) = N - 1) :
    (diffPeriodic N *ᵥ x) i = x a - x b := by
  simp only [Matrix.mulVec, Matrix.dotProduct, diffPeriodic, diffZero, Matrix.of_apply]
  rw [sum_two_support _ a b (by simp only [ne_eq, Fin.ext_iff]; omega)]
  · rw [if_pos (by omega), if_neg (by omega), if_neg (by omega),
      if_neg (by omega), if_pos (by omega)]
    ring
  · intro c hc1 hc2
    have hcv1 : (c : ℕ) ≠ (a : ℕ) := fun h => hc1 (Fin.ext h)
    have hcv2 : (c : ℕ) ≠ (b : ℕ) := fun h => hc2 (Fin.ext h)
    have hcb := c.isLt
    rw [if_neg (by omega), if_neg (by omega), if_neg (by omega), if_neg (by omega),
      zero_mul]

/-- Kernel of the `periodic` difference matrix: exactly the constants. -/
theorem diffPeriodic_ker {N : ℕ} (hN : 2 ≤ N) (x : Vec N) :
    diffPeriodic N *ᵥ x = 0 ↔ ∀ i j, x i = x j := by
  constructor
  · intro h
    have key : ∀ t (ht : t < N), x ⟨t, ht⟩ = x ⟨0, by omega⟩ := by
      intro t
      induction t with
      | zero => intro ht; rfl
      | succ s ih =>
        intro ht
        have h0 := congrFun h ⟨s + 1, by omega⟩
        rw [diffPeriodic_row_eq ⟨s + 1, by omega⟩ (by show s + 1 ≠ 0; omega)
          (by show s + 1 ≠ N; omega), diffZero_row_succ s ht] at h0
        simp only [Pi.zero_apply] at h0
        have hs := ih (by omega)
        rw [← hs]
        linarith [h0]
    intro i j
    rw [show i = ⟨(i : ℕ), i.2⟩ from rfl, show j = ⟨(j : ℕ), j.2⟩ from rfl,
      key i.1 i.2, key j.1 j.2]
  · intro hconst
    funext i
    simp only [Pi.zero_apply]
    rcases eq_or_ne (i : ℕ) 0 with h0 | h0
    · rw [diffPeriodic_row_zero hN x i h0 ⟨0, by omega⟩ ⟨N - 1, by omega⟩ rfl rfl,
        hconst ⟨0, by omega⟩ ⟨N - 1, by omega⟩]
      ring
    · rcases eq_or_ne (i : ℕ) N with hn | hn
      · rw [diffPeriodic_row_last hN x i hn ⟨0, by omega⟩ ⟨N - 1, by omega⟩ rfl rfl,
          hconst ⟨0, by omega⟩ ⟨N - 1, by omega⟩]
        ring
      · rw [diffPeriodic_row_eq i h0 hn]
        have hib := i.isLt
        obtain ⟨v, hv⟩ : ∃ v, (i : ℕ) = v + 1 := ⟨(i : ℕ) - 1, by omega⟩
        have hiv : i = ⟨v + 1, by omega⟩ := Fin.ext hv
        rw [hiv, diffZero_row_succ v (by omega),
          hconst ⟨v + 1, by omega⟩ ⟨v, by omega⟩]
        ring

/-- Interior rows of the GMRF `neumann` difference matrix are `x_{i+1} - x_i`. -/
theorem gmrfNeumannD_row {N : ℕ} (x : Vec N) (i : Fin N) (hi : (i : ℕ) < N - 1)
    (a : Fin N) (ha : (a : ℕ) = (i : ℕ) + 1) :
    (gmrfNeumannD N *ᵥ x) i = x a - x i := by
  simp only [Matrix.mulVec, Matrix.dotProduct, gmrfNeumannD, Matrix.of_apply]
  rw [sum_two_support _ a i (by simp only [ne_eq, Fin.ext_iff]; omega)]
  · rw [if_neg (by omega), if_neg (by omega), if_pos (by omega),
      if_neg (by omega), if_pos (by omega)]
    ring
  · intro c hc1 hc2
    have hcv1 : (c : ℕ) ≠ (a : ℕ) := fun h => hc1 (Fin.ext h)
    have hcv2 : (c : ℕ) ≠ (i : ℕ) := fun h => hc2 (Fin.ext h)
    rw [if_neg (by omega), if_neg (by omega), if_neg (by omega), zero_mul]

/-- The last row of the GMRF `neumann` difference matrix is zero. -/
theorem gmrfNeumannD_row_last {N : ℕ} (x : Vec N) (i : Fin N)
    (hi : (i : ℕ) = N - 1) :
    (gmrfNeumannD N *ᵥ x) i = 0 := by
  simp only [Matrix.mulVec, Matrix.dotProduct, gmrfNeumannD, Matrix.of_apply]
  refine Finset.sum_eq_zero fun c _ => ?_
  rcases eq_or_ne (c : ℕ) (N - 1) with hc | hc
  · rw [if_pos (by omega), zero_mul]
  · have hcb := c.isLt
    have hib := i.isLt
    rw [if_neg (by omega), if_neg (by omega), if_neg (by omega), zero_mul]

/-- Kernel of the GMRF `neumann` difference matrix: exactly the constants. -/
theorem gmrfNeumannD_ker {N : ℕ} (hN : 1 ≤ N) (x : Vec N) :
    gmrfNeumannD N *ᵥ x = 0 ↔ ∀ i j, x i = x j := by
  constructor
  · intro h
    have key : ∀ t (ht : t < N), x ⟨t, ht⟩ = x ⟨0, by omega⟩ := by
      intro t
      induction t with
      | zero => intro ht; rfl
      | succ s ih =>
        intro ht
        have h0 := congrFun h ⟨s, by omega⟩
        rw [gmrfNeumannD_row x ⟨s, by omega⟩ (by show s < N - 1; omega)
          ⟨s + 1, by omega⟩ (by show s + 1 = s + 1; rfl)] at h0
        simp only [Pi.zero_apply] at h0
        have hs := ih (by omega)
        rw [← hs]
        linarith [h0]
    intro i j
    rw [show i = ⟨(i : ℕ), i.2⟩ from rfl, show j = ⟨(j : ℕ), j.2⟩ from rfl,
      key i.1 i.2, key j.1 j.2]
  · intro hconst
    funext i
    simp only [Pi.zero_apply]
    rcases eq_or_ne (i : ℕ) (N - 1) with h0 | h0
    · rw [gmrfNeumannD_row_last x i h0]
    · have hib := i.isLt
      rw [gmrfNeumannD_row x i (by omega) ⟨(i : ℕ) + 1, by omega⟩ rfl,
        hconst ⟨(i : ℕ) + 1, by omega⟩ i]
      ring

/-- The Gram matrix `Aᵀ·A` is symmetric. -/
theorem isSymm_transpose_mul {m n : Type} [Fintype m] (A : Matrix m n ℚ) :
    (Aᵀ * A).IsSymm := by
  show (Aᵀ * A)ᵀ = Aᵀ * A
  rw [Matrix.transpose_mul, Matrix.transpose_transpose]

/-- The Gram matrix `Aᵀ·A` is positive semi-definite. -/
theorem posSemidef_transpose_mul {m n : Type} [Fintype m] [Fintype n] [DecidableEq n]
    (A : Matrix m n ℚ) : (Aᵀ * A).PosSemidef := by
  have h := Matrix.posSemidef_conjTranspose_mul_self A
  rwa [Matrix.conjTranspose_eq_transpose_of_trivial] at h

/-- Gram matrix of a vertical stack: `vstack(A,B)ᵀ·vstack(A,B) = AᵀA + BᵀB`. -/
theorem vstack_transpose_mul {m₁ m₂ n : Type} [Fintype m₁] [Fintype m₂]
    (A : Matrix m₁ n ℚ) (B : Matrix m₂ n ℚ) :
    (vstack A B)ᵀ * vstack A B = Aᵀ * A + Bᵀ * B := by
  ext i j
  simp only [Matrix.mul_apply, Matrix.add_apply, Matrix.transpose_apply]
  rw [Fintype.sum_sum_type]
  rfl

/-- Rows of `kron(I, D) · x`: the `(a, i)` entry applies `D` to the `a`-th
row slice of `x`. -/
theorem kron_one_mulVec {m n r : ℕ} (D : Matrix (Fin r) (Fin n) ℚ)
    (x : Fin m × Fin n → ℚ) (a : Fin m) (i : Fin r) :
    (Matrix.kroneckerMap (· * ·) (1 : Mat m m) D *ᵥ x) (a, i)
      = (D *ᵥ fun c => x (a, c)) i := by
  simp only [Matrix.mulVec, Matrix.dotProduct, Matrix.kroneckerMap_apply]
  rw [Fintype.sum_prod_type]
  rw [Finset.sum_eq_single a]
  · simp [Matrix.one_apply_eq]
  · intro k _ hk
    simp [Matrix.one_apply_ne' hk]
  · intro h
    exact absurd (Finset.mem_univ a) h

/-- Rows of `kron(D, I) · x`: the `(i, b)` entry applies `D` to the `b`-th
column slice of `x`. -/
theorem kron_id_mulVec {m n r : ℕ} (D : Matrix (Fin r) (Fin m) ℚ)
    (x : Fin m × Fin n → ℚ) (i : Fin r) (b : Fin n) :
    (Matrix.kroneckerMap (· * ·) D (1 : Mat n n) *ᵥ x) (i, b)
      = (D *ᵥ fun c => x (c, b)) i := by
  simp only [Matrix.mulVec, Matrix.dotProduct, Matrix.kroneckerMap_apply]
  rw [Fintype.sum_prod_type]
  refine Finset.sum_congr rfl fun k _ => ?_
  rw [Finset.sum_eq_single b]
  · simp [Matrix.one_apply_eq]
  · intro l _ hl
    simp [Matrix.one_apply_ne' hl]
  · intro h
    exact absurd (Finset.mem_univ b) h

/-- Reindexing commutes with forming the Gram matrix. -/
theorem reindex_transpose_mul {m n m' n' : Type} [Fintype m] [Fintype m']
    (e : m ≃ m') (f : n ≃ n') (A : Matrix m n ℚ) :
    (Matrix.reindex e f A)ᵀ * Matrix.reindex e f A = Matrix.reindex f f (Aᵀ * A) := by
  simp only [Matrix.reindex_apply]
  rw [Matrix.transpose_submatrix, Matrix.submatrix_mul_equiv]

/-- Transport of a "kernel is the constants" statement along a reindexing. -/
theorem ker_reindex_span_ones {m : ℕ} {ι : Type} [Fintype ι] [DecidableEq ι] [Nonempty ι]
    (A : Matrix ι ι ℚ) (e : ι ≃ Fin m)
    (h : LinearMap.ker A.mulVecLin = Submodule.span ℚ {(fun _ => 1 : ι → ℚ)}) :
    LinearMap.ker (Matrix.reindex e e A).mulVecLin
      = Submodule.span ℚ {(fun _ => 1 : Fin m → ℚ)} := by
  haveI : Nonempty (Fin m) := ⟨e (Classical.arbitrary ι)⟩
  ext y
  simp only [LinearMap.mem_ker, Matrix.mulVecLin_apply]
  have key : Matrix.reindex e e A *ᵥ y = 0 ↔ A *ᵥ (y ∘ e) = 0 := by
    rw [Matrix.reindex_apply, Matrix.submatrix_mulVec_equiv]
    simp only [Equiv.symm_symm]
    constructor
    · intro hz
      funext i
      have := congrFun hz (e i)
      simpa using this
    · intro hz
      funext j
      exact congrFun hz (e.symm j)
  rw [key]
  have h1 : A *ᵥ (y ∘ e) = 0 ↔ (y ∘ e) ∈ LinearMap.ker A.mulVecLin := by
    simp [LinearMap.mem_ker]
  rw [h1, h, ← const_iff_mem_span_ones, ← const_iff_mem_span_ones]
  constructor
  · intro hc p q
    have := hc (e.symm p) (e.symm q)
    simpa using this
  · intro hc i j
    exact hc (e i) (e j)

/-- A flattened grid vector is killed by both `kron(I,D)` and `kron(D,I)`
exactly when it is constant, provided `ker D` is the constants. -/
theorem kron_pair_ker {N r : ℕ} (D : Matrix (Fin r) (Fin N) ℚ)
    (hD : ∀ x : Vec N, D *ᵥ x = 0 ↔ ∀ i j, x i = x j)
    (x : Fin N × Fin N → ℚ) :
    (Matrix.kroneckerMap (· * ·) (1 : Mat N N) D *ᵥ x = 0 ∧
      Matrix.kroneckerMap (· * ·) D (1 : Mat N N) *ᵥ x = 0) ↔ ∀ p q, x p = x q := by
  constructor
  · rintro ⟨h1, h2⟩ ⟨p1, p2⟩ ⟨q1, q2⟩
    have hrow : ∀ a : Fin N, ∀ i j, x (a, i) = x (a, j) := by
      intro a
      refine (hD fun c => x (a, c)).mp ?_
      funext i
      have := congrFun h1 (a, i)
      rw [kron_one_mulVec] at this
      exact this
    have hcol : ∀ b : Fin N, ∀ i j, x (i, b) = x (j, b) := by
      intro b
      refine (hD fun c => x (c, b)).mp ?_
      funext i
      have := congrFun h2 (i, b)
      rw [kron_id_mulVec] at this
      exact this
    calc x (p1, p2) = x (p1, q2) := hrow p1 p2 q2
      _ = x (q1, q2) := hcol q2 p1 q1
  · intro hc
    constructor
    · funext p
      obtain ⟨a, i⟩ := p
      rw [kron_one_mulVec]
      have hz : D *ᵥ (fun c => x (a, c)) = 0 := (hD _).mpr fun i j => hc (a, i) (a, j)
      exact congrFun hz i
    · funext p
      obtain ⟨i, b⟩ := p
      rw [kron_id_mulVec]
      have hz : D *ᵥ (fun c => x (c, b)) = 0 := (hD _).mpr fun i j => hc (i, b) (j, b)
      exact congrFun hz i

/-- A flattened grid vector killed by `kron(I,D)` vanishes when `ker D` is
trivial. -/
theorem kron_one_ker_bot {N r : ℕ} (D : Matrix (Fin r) (Fin N) ℚ)
    (hD : ∀ x : Vec N, D *ᵥ x = 0 → x = 0)
    (x : Fin N × Fin N → ℚ)
    (h : Matrix.kroneckerMap (· * ·) (1 : Mat N N) D *ᵥ x = 0) : x = 0 := by
  funext p
  obtain ⟨a, j⟩ := p
  have hrow : D *ᵥ (fun c => x (a, c)) = 0 := by
    funext i
    have := congrFun h (a, i)
    rw [kron_one_mulVec] at this
    exact this
  exact congrFun (hD _ hrow) j

/-- Rank of the 1D structure matrix `Dᵀ·D` when `D` has trivial kernel. -/
theorem structL1_rank_bot {N r : ℕ} (D : Matrix (Fin r) (Fin N) ℚ)
    (hD : ∀ x : Vec N, D *ᵥ x = 0 → x = 0) :
    (Dᵀ * D).rank = N := by
  have hker : LinearMap.ker (Dᵀ * D).mulVecLin = ⊥ := by
    rw [Matrix.ker_mulVecLin_transpose_mul_self]
    ext x
    simp only [LinearMap.mem_ker, Matrix.mulVecLin_apply, Submodule.mem_bot]
    exact ⟨hD x, fun h => by rw [h, Matrix.mulVec_zero]⟩
  have h2 := rank_of_ker_bot _ hker
  simpa using h2

/-- Kernel and rank of the 1D structure matrix `Dᵀ·D` when `ker D` is the
constants. -/
theorem structL1_rank_ker {N r : ℕ} (hN : 1 ≤ N) (D : Matrix (Fin r) (Fin N) ℚ)
    (hD : ∀ x : Vec N, D *ᵥ x = 0 ↔ ∀ i j, x i = x j) :
    LinearMap.ker (Dᵀ * D).mulVecLin = Submodule.span ℚ {(fun _ => 1 : Fin N → ℚ)} ∧
      (Dᵀ * D).rank = N - 1 := by
  haveI : Nonempty (Fin N) := ⟨⟨0, by omega⟩⟩
  have hker : LinearMap.ker (Dᵀ * D).mulVecLin
      = Submodule.span ℚ {(fun _ => 1 : Fin N → ℚ)} := by
    rw [Matrix.ker_mulVecLin_transpose_mul_self]
    ext x
    simp only [LinearMap.mem_ker, Matrix.mulVecLin_apply]
    rw [← const_iff_mem_span_ones]
    exact hD x
  refine ⟨hker, ?_⟩
  have h2 := rank_of_ker_span_ones _ hker
  simpa using h2

/-- Reduction of `GMRF_init1` given the selected difference matrix. -/
theorem GMRF_init1_red (nl : NumLib) {N : ℕ} (mean : Vec N) (prec : ℚ) (BCs : String)
    (r : ℕ) (Dm : Matrix (Fin r) (Fin N) ℚ) (h : gmrfD1 N BCs = .ok ⟨r, Dm⟩) :
    GMRF_init1 nl mean prec BCs
      = .ok (gmrfFinish nl mean prec N BCs ⟨r, Dm⟩ (Dmᵀ * Dm)) := by
  rw [GMRF_init1, h]
  rfl

/-- Reduction of `GMRF_init2` given the selected difference matrix. -/
theorem GMRF_init2_red (nl : NumLib) {N : ℕ} (mean : Vec (N * N)) (prec : ℚ) (BCs : String)
    (r : ℕ) (Dm : Matrix (Fin r) (Fin N) ℚ) (h : gmrfD1 N BCs = .ok ⟨r, Dm⟩) :
    GMRF_init2 nl mean prec BCs
      = .ok (gmrfFinish nl mean prec N BCs ⟨N * r + r * N, gmrfD2 Dm⟩ (gmrfL2 Dm)) := by
  rw [GMRF_init2, h]
  rfl

/-- The flattened 2D structure matrix is the Gram matrix of the flattened
2D difference operator. -/
theorem gmrfL2_eq {N r : ℕ} (D : Matrix (Fin r) (Fin N) ℚ) :
    gmrfL2 D = (gmrfD2 D)ᵀ * gmrfD2 D := by
  rw [gmrfD2, reindex_transpose_mul, vstack_transpose_mul, gmrfL2]

/-- The flattened 2D structure matrix is symmetric. -/
theorem gmrfL2_isSymm {N r : ℕ} (D : Matrix (Fin r) (Fin N) ℚ) : (gmrfL2 D).IsSymm := by
  rw [gmrfL2_eq]
  exact isSymm_transpose_mul _

/-- The flattened 2D structure matrix is positive semi-definite. -/
theorem gmrfL2_posSemidef {N r : ℕ} (D : Matrix (Fin r) (Fin N) ℚ) :
    (gmrfL2 D).PosSemidef := by
  rw [gmrfL2_eq]
  exact posSemidef_transpose_mul _

/-- Rank of the flattened 2D structure matrix when `ker D` is trivial. -/
theorem gmrfL2_rank_bot {N r : ℕ} (D : Matrix (Fin r) (Fin N) ℚ)
    (hD : ∀ x : Vec N, D *ᵥ x = 0 → x = 0) :
    (gmrfL2 D).rank = N * N := by
  rw [gmrfL2, Matrix.rank_reindex, ← vstack_transpose_mul, Matrix.rank_transpose_mul_self]
  have hker : LinearMap.ker (vstack (Matrix.kroneckerMap (· * ·) (1 : Mat N N) D)
      (Matrix.kroneckerMap (· * ·) D (1 : Mat N N))).mulVecLin = ⊥ := by
    ext x
    simp only [LinearMap.mem_ker, Matrix.mulVecLin_apply, Submodule.mem_bot]
    constructor
    · intro h
      refine kron_one_ker_bot D hD x ?_
      funext p
      exact congrFun h (Sum.inl p)
    · intro h
      rw [h, Matrix.mulVec_zero]
  have h2 := rank_of_ker_bot _ hker
  simpa [Fintype.card_prod] using h2

/-- Kernel and rank of the flattened 2D structure matrix when `ker D` is
the constants. -/
theorem gmrfL2_rank_ker {N r : ℕ} (hN : 1 ≤ N) (D : Matrix (Fin r) (Fin N) ℚ)
    (hD : ∀ x : Vec N, D *ᵥ x = 0 ↔ ∀ i j, x i = x j) :
    LinearMap.ker (gmrfL2 D).mulVecLin
        = Submodule.span ℚ {(fun _ => 1 : Fin (N * N) → ℚ)} ∧
      (gmrfL2 D).rank = N * N - 1 := by
  haveI : Nonempty (Fin N) := ⟨⟨0, by omega⟩⟩
  have hkerW : LinearMap.ker (vstack (Matrix.kroneckerMap (· * ·) (1 : Mat N N) D)
      (Matrix.kroneckerMap (· * ·) D (1 : Mat N N))).mulVecLin
      = Submodule.span ℚ {(fun _ => 1 : Fin N × Fin N → ℚ)} := by
    ext x
    simp only [LinearMap.mem_ker, Matrix.mulVecLin_apply]
    rw [← const_iff_mem_span_ones]
    constructor
    · intro h
      refine (kron_pair_ker D hD x).mp ⟨?_, ?_⟩
      · funext p
        exact congrFun h (Sum.inl p)
      · funext p
        exact congrFun h (Sum.inr p)
    · intro hc
      obtain ⟨h1, h2⟩ := (kron_pair_ker D hD x).mpr hc
      funext s
      cases s with
      | inl p => exact congrFun h1 p
      | inr q => exact congrFun h2 q
  have hkerM : LinearMap.ker ((Matrix.kroneckerMap (· * ·) (1 : Mat N N) D)ᵀ *
        Matrix.kroneckerMap (· * ·) (1 : Mat N N) D
      + (Matrix.kroneckerMap (· * ·) D (1 : Mat N N))ᵀ *
        Matrix.kroneckerMap (· * ·) D (1 : Mat N N)).mulVecLin
      = Submodule.span ℚ {(fun _ => 1 : Fin N × Fin N → ℚ)} := by
    rw [← vstack_transpose_mul, Matrix.ker_mulVecLin_transpose_mul_self]
    exact hkerW
  constructor
  · rw [gmrfL2]
    exact ker_reindex_span_ones _ (rowMajor N N) hkerM
  · rw [gmrfL2, Matrix.rank_reindex, ← vstack_transpose_mul, Matrix.rank_transpose_mul_self]
    have h2 := rank_of_ker_span_ones _ hkerW
    simpa [Fintype.card_prod] using h2

/-- The `Lmat` attribute stored by `gmrfFinish` is the structure matrix it
was given, for every boundary condition. -/
theorem gmrfFinish_Lmat (nl : NumLib) {n : ℕ} (mean : Vec n) (prec : ℚ) (Np : ℕ)
    (BCs : String) (Dm : (r : ℕ) × Matrix (Fin r) (Fin n) ℚ) (L : Mat n n) :
    (gmrfFinish nl mean prec Np BCs Dm L).Lmat = L := by
  rw [gmrfFinish]
  split_ifs <;> rfl

/-- The `Dmat` attribute stored by `gmrfFinish` is the difference matrix it
was given, for every boundary condition. -/
theorem gmrfFinish_Dmat (nl : NumLib) {n : ℕ} (mean : Vec n) (prec : ℚ) (Np : ℕ)
    (BCs : String) (Dm : (r : ℕ) × Matrix (Fin r) (Fin n) ℚ) (L : Mat n n) :
    (gmrfFinish nl mean prec Np BCs Dm L).Dmat = Dm := by
  rw [gmrfFinish]
  split_ifs <;> rfl

/-- The `rank` attribute stored by `gmrfFinish` for boundary condition `zero`
is the full dimension. -/
theorem gmrfFinish_rank_zero (nl : NumLib) {n : ℕ} (mean : Vec n) (prec : ℚ) (Np : ℕ)
    (Dm : (r : ℕ) × Matrix (Fin r) (Fin n) ℚ) (L : Mat n n) :
    (gmrfFinish nl mean prec Np "zero" Dm L).rank = some n := by
  rw [gmrfFinish, if_pos rfl]

/-- The `rank` attribute stored by `gmrfFinish` for boundary conditions
`periodic` and `neumann` is the dimension minus one. -/
theorem gmrfFinish_rank_pn (nl : NumLib) {n : ℕ} (mean : Vec n) (prec : ℚ) (Np : ℕ)
    (BCs : String) (Dm : (r : ℕ) × Matrix (Fin r) (Fin n) ℚ) (L : Mat n n)
    (hBC : BCs = "periodic" ∨ BCs = "neumann") :
    (gmrfFinish nl mean prec Np BCs Dm L).rank = some (n - 1) := by
  rw [gmrfFinish_pn nl mean prec Np BCs Dm L hBC]
  split_ifs <;> rfl

/-- C5 (confirmed).  For every GMRF constructed with partition size `N ≥ 2`,
spatial dimension `dom ∈ {1, 2}` and boundary condition in
`{zero, periodic, neumann}`, the constructed structure matrix `L = Dᵀ·D` is
symmetric positive semi-definite; its rank equals the full dimension
(`N` for `dom = 1`, `N²` for `dom = 2`) for boundary condition `zero` and
the dimension minus one for `periodic` and `neumann`, in which case the
constant vector spans the null space; and the stored `rank` attribute
matches these values. -/
theorem gmrfStructure_rank_spec (nl : NumLib) {N : ℕ} (hN : 2 ≤ N)
    (mean1 : Vec N) (mean2 : Vec (N * N)) (prec : ℚ) (BCs : String)
    (hB : BCs = "zero" ∨ BCs = "periodic" ∨ BCs = "neumann") :
    ∃ (g1 : GMRFAttrs N) (g2 : GMRFAttrs (N * N)),
      GMRF_init1 nl mean1 prec BCs = .ok g1 ∧
      GMRF_init2 nl mean2 prec BCs = .ok g2 ∧
      g1.Lmat = (g1.Dmat.2)ᵀ * g1.Dmat.2 ∧
      g2.Lmat = (g2.Dmat.2)ᵀ * g2.Dmat.2 ∧
      g1.Lmat.IsSymm ∧ g2.Lmat.IsSymm ∧
      g1.Lmat.PosSemidef ∧ g2.Lmat.PosSemidef ∧
      g1.Lmat.rank = (if BCs = "zero" then N else N - 1) ∧
      g2.Lmat.rank = (if BCs = "zero" then N * N else N * N - 1) ∧
      g1.rank = some (if BCs = "zero" then N else N - 1) ∧
      g2.rank = some (if BCs = "zero" then N * N else N * N - 1) ∧
      (BCs ≠ "zero" →
        LinearMap.ker g1.Lmat.mulVecLin
            = Submodule.span ℚ {(fun _ => 1 : Fin N → ℚ)} ∧
          LinearMap.ker g2.Lmat.mulVecLin
            = Submodule.span ℚ {(fun _ => 1 : Fin (N * N) → ℚ)}) := by
  have hN1 : 1 ≤ N := by omega
  rcases hB with h | h | h <;> subst h
  · refine ⟨_, _, GMRF_init1_red nl mean1 prec "zero" (N + 1) (diffZero N) rfl,
      GMRF_init2_red nl mean2 prec "zero" (N + 1) (diffZero N) rfl,
      ?_, ?_, ?_, ?_, ?_, ?_, ?_, ?_, ?_, ?_, ?_⟩
    · rw [gmrfFinish_Lmat, gmrfFinish_Dmat]
    · rw [gmrfFinish_Lmat, gmrfFinish_Dmat]
      exact gmrfL2_eq (diffZero N)
    · rw [gmrfFinish_Lmat]
      exact isSymm_transpose_mul (diffZero N)
    · rw [gmrfFinish_Lmat]
      exact gmrfL2_isSymm (diffZero N)
    · rw [gmrfFinish_Lmat]
      exact posSemidef_transpose_mul (diffZero N)
    · rw [gmrfFinish_Lmat]
      exact gmrfL2_posSemidef (diffZero N)
    · rw [gmrfFinish_Lmat, if_pos rfl]
      exact structL1_rank_bot (diffZero N) (fun x hx => diffZero_ker x hx)
    · rw [gmrfFinish_Lmat, if_pos rfl]
      exact gmrfL2_rank_bot (diffZero N) (fun x hx => diffZero_ker x hx)
    · rw [gmrfFinish_rank_zero, if_pos rfl]
    · rw [gmrfFinish_rank_zero, if_pos rfl]
    · intro hne
      exact absurd rfl hne
  · refine ⟨_, _, GMRF_init1_red nl mean1 prec "periodic" (N + 1) (diffPeriodic N) rfl,
      GMRF_init2_red nl mean2 prec "periodic" (N + 1) (diffPeriodic N) rfl,
      ?_, ?_, ?_, ?_, ?_, ?_, ?_, ?_, ?_, ?_, ?_⟩
    · rw [gmrfFinish_Lmat, gmrfFinish_Dmat]
    · rw [gmrfFinish_Lmat, gmrfFinish_Dmat]
      exact gmrfL2_eq (diffPeriodic N)
    · rw [gmrfFinish_Lmat]
      exact isSymm_transpose_mul (diffPeriodic N)
    · rw [gmrfFinish_Lmat]
      exact gmrfL2_isSymm (diffPeriodic N)
    · rw [gmrfFinish_Lmat]
      exact posSemidef_transpose_mul (diffPeriodic N)
    · rw [gmrfFinish_Lmat]
      exact gmrfL2_posSemidef (diffPeriodic N)
    · rw [gmrfFinish_Lmat, if_neg (by decide)]
      exact (structL1_rank_ker hN1 (diffPeriodic N) (fun x => diffPeriodic_ker hN x)).2
    · rw [gmrfFinish_Lmat, if_neg (by decide)]
      exact (gmrfL2_rank_ker hN1 (diffPeriodic N) (fun x => diffPeriodic_ker hN x)).2
    · rw [gmrfFinish_rank_pn _ _ _ _ _ _ _ (Or.inl rfl), if_neg (by decide)]
    · rw [gmrfFinish_rank_pn _ _ _ _ _ _ _ (Or.inl rfl), if_neg (by decide)]
    · intro hne
      constructor
      · rw [gmrfFinish_Lmat]
        exact (structL1_rank_ker hN1 (diffPeriodic N) (fun x => diffPeriodic_ker hN x)).1
      · rw [gmrfFinish_Lmat]
        exact (gmrfL2_rank_ker hN1 (diffPeriodic N) (fun x => diffPeriodic_ker hN x)).1
  · refine ⟨_, _, GMRF_init1_red nl mean1 prec "neumann" N (gmrfNeumannD N) rfl,
      GMRF_init2_red nl mean2 prec "neumann" N (gmrfNeumannD N) rfl,
      ?_, ?_, ?_, ?_, ?_, ?_, ?_, ?_, ?_, ?_, ?_⟩
    · rw [gmrfFinish_Lmat, gmrfFinish_Dmat]
    · rw [gmrfFinish_Lmat, gmrfFinish_Dmat]
      exact gmrfL2_eq (gmrfNeumannD N)
    · rw [gmrfFinish_Lmat]
      exact isSymm_transpose_mul (gmrfNeumannD N)
    · rw [gmrfFinish_Lmat]
      exact gmrfL2_isSymm (gmrfNeumannD N)
    · rw [gmrfFinish_Lmat]
      exact posSemidef_transpose_mul (gmrfNeumannD N)
    · rw [gmrfFinish_Lmat]
      exact gmrfL2_posSemidef (gmrfNeumannD N)
    · rw [gmrfFinish_Lmat, if_neg (by decide)]
      exact (structL1_rank_ker hN1 (gmrfNeumannD N) (fun x => gmrfNeumannD_ker hN1 x)).2
    · rw [gmrfFinish_Lmat, if_neg (by decide)]
      exact (gmrfL2_rank_ker hN1 (gmrfNeumannD N) (fun x => gmrfNeumannD_ker hN1 x)).2
    · rw [gmrfFinish_rank_pn _ _ _ _ _ _ _ (Or.inr rfl), if_neg (by decide)]
    · rw [gmrfFinish_rank_pn _ _ _ _ _ _ _ (Or.inr rfl), if_neg (by decide)]
    · intro hne
      constructor
      · rw [gmrfFinish_Lmat]
        exact (structL1_rank_ker hN1 (gmrfNeumannD N) (fun x => gmrfNeumannD_ker hN1 x)).1
      · rw [gmrfFinish_Lmat]
        exact (gmrfL2_rank_ker hN1 (gmrfNeumannD N) (fun x => gmrfNeumannD_ker hN1 x)).1

/-- Witness for `gmrfStructure_rank_spec` at `N = 2`, boundary condition
`periodic`, zero means and unit precision. -/
theorem gmrfStructure_rank_spec_witness :
    (2 ≤ 2 ∧ ("periodic" = "zero" ∨ "periodic" = "periodic" ∨ "periodic" = "neumann")) ∧
    (∃ (g1 : GMRFAttrs 2) (g2 : GMRFAttrs (2 * 2)),
      GMRF_init1 zeroNumLib (0 : Vec 2) 1 "periodic" = .ok g1 ∧
      GMRF_init2 zeroNumLib (0 : Vec (2 * 2)) 1 "periodic" = .ok g2 ∧
      g1.Lmat = (g1.Dmat.2)ᵀ * g1.Dmat.2 ∧
      g2.Lmat = (g2.Dmat.2)ᵀ * g2.Dmat.2 ∧
      g1.Lmat.IsSymm ∧ g2.Lmat.IsSymm ∧
      g1.Lmat.PosSemidef ∧ g2.Lmat.PosSemidef ∧
      g1.Lmat.rank = (if "periodic" = "zero" then 2 else 2 - 1) ∧
      g2.Lmat.rank = (if "periodic" = "zero" then 2 * 2 else 2 * 2 - 1) ∧
      g1.rank = some (if "periodic" = "zero" then 2 else 2 - 1) ∧
      g2.rank = some (if "periodic" = "zero" then 2 * 2 else 2 * 2 - 1) ∧
      ("periodic" ≠ "zero" →
        LinearMap.ker g1.Lmat.mulVecLin
            = Submodule.span ℚ {(fun _ => 1 : Fin 2 → ℚ)} ∧
          LinearMap.ker g2.Lmat.mulVecLin
            = Submodule.span ℚ {(fun _ => 1 : Fin (2 * 2) → ℚ)})) :=
  ⟨⟨by norm_num, Or.inr (Or.inl rfl)⟩,
    gmrfStructure_rank_spec zeroNumLib (by norm_num) 0 0 1 "periodic"
      (Or.inr (Or.inl rfl))⟩

end CUQIpy
